import Mathlib

/-!
Verification development for the vimeo-importer repository.

Part 1 embeds the rate-limited paginated fetcher (`VideoBrowser` component,
`rateLimitedRequest` / `fetchAllData`): requests are modelled by an oracle
list of responses, time delays are recorded as data instead of being slept,
and the React `useState` cells (`videos`, `folders`, `progress`) become the
fields of an explicit outcome record.

Part 2 embeds the transfer orchestrator (`App` component): the import item
record, the `runImport` pipeline as a trace of `updateImport` patches driven
by a request oracle, polling timer registration and ticks, persistence load
and resume, all combined into a small-step transition system on an explicit
application state.
-/

/-! ### Fetcher: rate limiting configuration (source constants) -/

def MAX_RETRIES : Nat := 5

def INITIAL_RETRY_DELAY_MS : Nat := 2000

/-! ### Fetcher: data model -/

/-- One entry of `VimeoVideoRaw.download` (quality/rendition/size/width/height). -/
structure VimeoDownload where
  quality : String
  rendition : String
  size : Nat
  width : Nat
  height : Nat
deriving DecidableEq

/-- One entry of `parent_folder.metadata.connections.ancestor_path`. -/
structure AncestorEntry where
  uri : String
  name : String
deriving DecidableEq

/-- `parent_folder` of a raw video.  The source's optional
`metadata?.connections?.ancestor_path` is modelled as a plain list: the code
guards it with `ancestorPath && ancestorPath.length > 0`, so an absent chain
and an empty chain behave identically. -/
structure ParentFolder where
  uri : String
  name : String
  ancestor_path : List AncestorEntry
deriving DecidableEq

/-- Raw video object from the paginated listing.  The optional `download?`
array is modelled as a list ([] for absent): the code guards it with
`video.download && video.download.length > 0`. -/
structure VimeoVideoRaw where
  uri : String
  name : String
  type : String
  download : List VimeoDownload
  parent_folder : Option ParentFolder
deriving DecidableEq

/-- Derived per-video record (`VimeoVideoInfo`). -/
structure VimeoVideoInfo where
  vimeoId : String
  title : String
  folderId : Option String
  folderName : Option String
  folderPath : Option String
  fileSize : Option Nat
deriving DecidableEq

/-- Entry of the `folders` map: display name and derived path. -/
structure FolderEntry where
  name : String
  path : String
deriving DecidableEq

/-- Status field of `FetchProgress`. -/
inductive FetchStatus where
  | idle
  | fetching
  | complete
  | error
deriving DecidableEq

/-! ### Fetcher: rate-limited request loop -/

/-- Outcome of one HTTP attempt, as seen by `rateLimitedRequest`:
a successful response, a 429 quota rejection (optionally carrying a
`retry-after` header value in seconds), or any other error.  Non-quota
errors are collapsed to their extracted message string. -/
inductive Response (α : Type) where
  | success (value : α)
  | rateLimited (retryAfter : Option Nat)
  | otherError (msg : String)
deriving DecidableEq

/-- The retry loop of `rateLimitedRequest`, driven by an oracle list of
attempt outcomes.  `retries` and `retryDelay` are the loop-carried mutable
variables of the source.  On success the value is returned together with the
list of waiting delays (ms) performed before each retry, in order; on a 429
past the retry ceiling, or any other error, the loop throws.  An exhausted
oracle models a request that never returns ("no response"). -/
def rateLimitedRequestLoop {α : Type} :
    List (Response α) → Nat → Nat → Except String (α × List Nat)
  | [], _, _ => .error "no response"
  | .success v :: _, _, _ => .ok (v, [])
  | .otherError msg :: _, _, _ => .error msg
  | .rateLimited retryAfter :: rest, retries, retryDelay =>
    if retries + 1 > MAX_RETRIES then
      .error "Rate limit exceeded. Please wait a few minutes and try again."
    else
      let waitTime := match retryAfter with
        | some secs => secs * 1000
        | none => retryDelay
      match rateLimitedRequestLoop rest (retries + 1) (retryDelay * 2) with
      | .ok (v, delays) => .ok (v, waitTime :: delays)
      | .error e => .error e

/-- `rateLimitedRequest` entry point: `retries = 0`,
`retryDelay = INITIAL_RETRY_DELAY_MS`. -/
def rateLimitedRequest {α : Type} (responses : List (Response α)) :
    Except String (α × List Nat) :=
  rateLimitedRequestLoop responses 0 INITIAL_RETRY_DELAY_MS

/-! ### Fetcher: derivation helpers -/

/-- `calculateTotalPages`: `Math.ceil(total / perPage)`. -/
def calculateTotalPages (total perPage : Nat) : Nat :=
  (total + perPage - 1) / perPage

/-- Scan for the first position where `marker` occurs followed by at least
one decimal digit, and return that maximal digit run — the match group of
the source's regular expressions `/\/videos\/(\d+)/` and
`/\/projects\/(\d+)/`. -/
def digitsAfterMarker (marker : List Char) : List Char → Option (List Char)
  | [] => none
  | c :: rest =>
    if marker.isPrefixOf (c :: rest) then
      let digits := ((c :: rest).drop marker.length).takeWhile (·.isDigit)
      if digits.isEmpty then digitsAfterMarker marker rest
      else some digits
    else digitsAfterMarker marker rest

/-- `extractVideoId`: the digit group of the first `/videos/<digits>` in the
uri, else the uri itself. -/
def extractVideoId (uri : String) : String :=
  match digitsAfterMarker "/videos/".data uri.data with
  | some d => String.mk d
  | none => uri

/-- `extractFolderId`: the digit group of the first `/projects/<digits>` in
the uri, else the uri itself. -/
def extractFolderId (uri : String) : String :=
  match digitsAfterMarker "/projects/".data uri.data with
  | some d => String.mk d
  | none => uri

/-- The folder-path construction inside `fetchAllData`: the ancestor chain is
listed immediate-parent-first, so it is reversed into root-first order, the
folder's own name is pushed as the last segment, and the parts are joined
with "/"; with no ancestors the path is just the folder name. -/
def buildFolderPath (ancestorPath : List AncestorEntry) (folderName : String) :
    String :=
  if ancestorPath.length > 0 then
    String.intercalate "/" ((ancestorPath.reverse.map (·.name)) ++ [folderName])
  else
    folderName

/-- The file-size derivation inside `fetchAllData`: with a non-empty download
list, filter out the "source" rendition class and reduce to the entry of
largest size — but, exactly as in the source, the reduce is seeded with the
UNFILTERED first element `video.download[0]`. -/
def computeFileSize (download : List VimeoDownload) : Option Nat :=
  match download with
  | [] => none
  | d0 :: _ =>
    let largestDownload :=
      (download.filter (fun d => d.rendition != "source")).foldl
        (fun largest current =>
          if current.size > largest.size then current else largest) d0
    some largestDownload.size

/-- Association-list lookup for the `folders` map. -/
def lookupFolder (fid : String) : List (String × FolderEntry) → Option FolderEntry
  | [] => none
  | (k, v) :: rest => if k = fid then some v else lookupFolder fid rest

/-- The per-retained-video body of the page loop of `fetchAllData`: derive
the folder triple and file size, extend the folder map if the folder id is
new, and produce the `VimeoVideoInfo` entry. -/
def processVideoEntry (video : VimeoVideoRaw)
    (folderMap : List (String × FolderEntry)) :
    VimeoVideoInfo × List (String × FolderEntry) :=
  let videoId := extractVideoId video.uri
  match video.parent_folder with
  | some pf =>
    let folderId := extractFolderId pf.uri
    let folderName := pf.name
    let folderPath := buildFolderPath pf.ancestor_path folderName
    let folderMap' :=
      if (lookupFolder folderId folderMap).isSome then folderMap
      else folderMap ++ [(folderId, ⟨folderName, folderPath⟩)]
    (⟨videoId, video.name, some folderId, some folderName, some folderPath,
      computeFileSize video.download⟩, folderMap')
  | none =>
    (⟨videoId, video.name, none, none, none, computeFileSize video.download⟩,
      folderMap)

/-- One page of the loop: live events (`type ≠ "video"`) are skipped, every
retained entry is processed in order and appended to the accumulator. -/
def processPage (vids : List VimeoVideoRaw)
    (acc : List VimeoVideoInfo) (fm : List (String × FolderEntry)) :
    List VimeoVideoInfo × List (String × FolderEntry) :=
  vids.foldl
    (fun state v =>
      if v.type != "video" then state
      else
        let r := processVideoEntry v state.2
        (state.1 ++ [r.1], r.2))
    (acc, fm)

/-- One page of the paginated response: reported total, entries, and whether
`paging.next` is present. -/
structure FetchPage where
  total : Nat
  data : List VimeoVideoRaw
  hasNext : Bool
deriving DecidableEq

/-- The published outcome of `fetchAllData`: the `videos` and `folders`
state cells plus the final `FetchProgress`. -/
structure FetchOutcome where
  videos : List VimeoVideoInfo
  folders : List (String × FolderEntry)
  status : FetchStatus
  errorMessage : Option String
  totalPages : Nat
deriving DecidableEq

/-- The `while (nextUrl)` loop of `fetchAllData`: each iteration fetches one
page through `rateLimitedRequest` (its per-page attempt outcomes supplied by
the oracle `streams`), accumulates the processed entries and folder map, and
continues while `paging.next` is present.  Any error thrown by the request
aborts the whole enumeration; the thrown error carries the `totalPages`
progress field as published at that moment (`0` until the first page
succeeds, then the value computed from the first page), since the catch
block of the source keeps every previously published progress field. -/
def fetchLoop : List (List (Response FetchPage)) →
    List VimeoVideoInfo → List (String × FolderEntry) → Nat → Nat →
    Except (String × Nat)
      (List VimeoVideoInfo × List (String × FolderEntry) × Nat)
  | [], _, _, _, totalPages => .error ("no response", totalPages)
  | stream :: rest, acc, fm, currentPage, totalPages =>
    match rateLimitedRequest stream with
    | .error msg => .error (msg, totalPages)
    | .ok (page, _) =>
      let totalPages' :=
        if currentPage = 1 then calculateTotalPages page.total 100
        else totalPages
      let r := processPage page.data acc fm
      if page.hasNext then fetchLoop rest r.1 r.2 (currentPage + 1) totalPages'
      else .ok (r.1, r.2, totalPages')

/-- `fetchAllData`: `videos` and `folders` are cleared before the loop and
published only after the whole enumeration succeeds; on any thrown error the
progress status becomes `error` with the extracted message, the cleared
(empty) `videos` / `folders` remain, and the progress keeps the `totalPages`
published so far (`0` before the first page succeeded). -/
def fetchAllData (streams : List (List (Response FetchPage))) : FetchOutcome :=
  match fetchLoop streams [] [] 1 0 with
  | .ok (videos, folders, totalPages) =>
    ⟨videos, folders, .complete, none, totalPages⟩
  | .error (msg, totalPages) =>
    ⟨[], [], .error, some ("Error: " ++ msg), totalPages⟩

/-! ### Fetcher lemmas -/

/-- A stream of nothing but quota rejections long enough to exceed the retry
ceiling makes the retry loop throw the rate-limit error. -/
theorem rateLimitedRequestLoop_allQuota_error {α : Type}
    (stream : List (Response α)) (retries retryDelay : Nat)
    (hall : ∀ r ∈ stream, ∃ ra, r = .rateLimited ra)
    (hlen : MAX_RETRIES < stream.length + retries)
    (hret : retries ≤ MAX_RETRIES) :
    rateLimitedRequestLoop stream retries retryDelay =
      .error "Rate limit exceeded. Please wait a few minutes and try again." := by
  induction stream generalizing retries retryDelay with
  | nil =>
    simp only [List.length_nil, Nat.zero_add] at hlen
    exact absurd hlen (Nat.not_lt.mpr hret)
  | cons r rest ih =>
    obtain ⟨ra, rfl⟩ := hall r (List.mem_cons_self r rest)
    by_cases hre : retries + 1 > MAX_RETRIES
    · simp [rateLimitedRequestLoop, hre]
    · have hret' : retries + 1 ≤ MAX_RETRIES := Nat.not_lt.mp hre
      have hlen' : MAX_RETRIES < rest.length + (retries + 1) := by
        have := hlen
        simp only [List.length_cons] at this
        omega
      have hall' : ∀ x ∈ rest, ∃ ra', x = Response.rateLimited ra' :=
        fun x hx => hall x (List.mem_cons_of_mem _ hx)
      simp [rateLimitedRequestLoop, hre,
        ih (retries + 1) (retryDelay * 2) hall' hlen' hret']

/-! ### Fetcher claim theorems -/

/-- Claim C7: three consecutive quota-rejected responses carrying no
retry-after header followed by a success make `rateLimitedRequest` perform
exactly three retries, the waits before the retries are the doubling
sequence starting from the fixed initial delay (hence monotonically
non-decreasing), and the successful response is returned to the caller. -/
theorem C7_rateLimit_retry_backoff (v : Nat) :
    rateLimitedRequest [Response.rateLimited none, Response.rateLimited none,
        Response.rateLimited none, Response.success v] =
      .ok (v, [2000, 4000, 8000]) ∧
    [2000, 4000, 8000].length = 3 ∧
    List.Chain' (· ≤ ·) [(2000 : Nat), 4000, 8000] ∧
    2000 = INITIAL_RETRY_DELAY_MS ∧ 4000 = 2 * INITIAL_RETRY_DELAY_MS ∧
    8000 = 2 * (2 * INITIAL_RETRY_DELAY_MS) := by
  refine ⟨rfl, rfl, by norm_num [List.chain'_cons], by decide, by decide, by decide⟩

/-- A stream of nothing but quota rejections long enough to exceed the retry
ceiling makes `rateLimitedRequest` itself throw the rate-limit error. -/
theorem rateLimitedRequest_allQuota_error
    (stream : List (Response FetchPage))
    (hall : ∀ r ∈ stream, ∃ ra, r = Response.rateLimited ra)
    (hlen : MAX_RETRIES < stream.length) :
    rateLimitedRequest stream =
      .error "Rate limit exceeded. Please wait a few minutes and try again." := by
  have := rateLimitedRequestLoop_allQuota_error stream 0 INITIAL_RETRY_DELAY_MS
    hall (by simpa using hlen) (Nat.zero_le _)
  simpa [rateLimitedRequest] using this

/-- If every page before position `k` is fetched successfully and announces a
next page, and every attempt at page `k` is quota-rejected for more attempts
than the retry ceiling, then the whole page loop throws the rate-limit
error, whatever was accumulated before — for any accumulator, folder map,
page counter and published `totalPages`. -/
theorem fetchLoop_reaches_allQuota
    (bad : List (Response FetchPage)) (post : List (List (Response FetchPage)))
    (hall : ∀ r ∈ bad, ∃ ra, r = Response.rateLimited ra)
    (hlen : MAX_RETRIES < bad.length) :
    ∀ pre : List (List (Response FetchPage)),
      (∀ s ∈ pre, ∃ page ds, rateLimitedRequest s = .ok (page, ds) ∧
        page.hasNext = true) →
      ∀ acc fm currentPage totalPages, ∃ tp,
        fetchLoop (pre ++ bad :: post) acc fm currentPage totalPages =
          .error
            ("Rate limit exceeded. Please wait a few minutes and try again.",
              tp) := by
  intro pre
  induction pre with
  | nil =>
    intro _ acc fm currentPage totalPages
    refine ⟨totalPages, ?_⟩
    rw [List.nil_append]
    show (match rateLimitedRequest bad with
      | Except.error msg => Except.error (msg, totalPages)
      | Except.ok (page, _) =>
        let totalPages' :=
          if currentPage = 1 then calculateTotalPages page.total 100
          else totalPages
        let r := processPage page.data acc fm
        if page.hasNext then
          fetchLoop post r.1 r.2 (currentPage + 1) totalPages'
        else Except.ok (r.1, r.2, totalPages')) = _
    rw [rateLimitedRequest_allQuota_error bad hall hlen]
  | cons s rest ih =>
    intro hpre acc fm currentPage totalPages
    obtain ⟨page, ds, hreq, hnext⟩ := hpre s (List.mem_cons_self _ _)
    obtain ⟨tp, hh⟩ := ih (fun t ht => hpre t (List.mem_cons_of_mem _ ht))
      (processPage page.data acc fm).1 (processPage page.data acc fm).2
      (currentPage + 1)
      (if currentPage = 1 then calculateTotalPages page.total 100
        else totalPages)
    refine ⟨tp, ?_⟩
    rw [List.cons_append]
    show (match rateLimitedRequest s with
      | Except.error msg => Except.error (msg, totalPages)
      | Except.ok (page, _) =>
        let totalPages' :=
          if currentPage = 1 then calculateTotalPages page.total 100
          else totalPages
        let r := processPage page.data acc fm
        if page.hasNext then
          fetchLoop (rest ++ bad :: post) r.1 r.2 (currentPage + 1) totalPages'
        else Except.ok (r.1, r.2, totalPages')) = _
    rw [hreq]
    simp only [hnext, if_true]
    exact hh

/-- Claim C6: an enumeration in which some page request — first or
mid-enumeration, after any run of successful pages — is quota-rejected on
every attempt, for more attempts than the retry ceiling, terminates with a
fatal error and exposes no partial results: the published video list and
folder map stay empty (they are cleared at the start and re-published only
on full success, so everything accumulated from the earlier pages is
discarded), the progress status is `error`, and the rate-limit message is
surfaced — the operation is all-or-nothing. -/
theorem C6_allQuota_allOrNothing
    (pre : List (List (Response FetchPage)))
    (bad : List (Response FetchPage))
    (post : List (List (Response FetchPage)))
    (hpre : ∀ s ∈ pre, ∃ page ds, rateLimitedRequest s = .ok (page, ds) ∧
      page.hasNext = true)
    (hall : ∀ r ∈ bad, ∃ ra, r = Response.rateLimited ra)
    (hlen : MAX_RETRIES < bad.length) :
    (fetchAllData (pre ++ bad :: post)).videos = [] ∧
    (fetchAllData (pre ++ bad :: post)).folders = [] ∧
    (fetchAllData (pre ++ bad :: post)).status = .error ∧
    (fetchAllData (pre ++ bad :: post)).errorMessage =
      some "Error: Rate limit exceeded. Please wait a few minutes and try again." := by
  obtain ⟨tp, hh⟩ :=
    fetchLoop_reaches_allQuota bad post hall hlen pre hpre [] [] 1 0
  unfold fetchAllData
  rw [hh]
  exact ⟨rfl, rfl, rfl, rfl⟩

/-- A first page that succeeds, announces a next page and carries one
retained video entry — accumulated, then discarded by the failing second
page. -/
def c6GoodPage : FetchPage :=
  ⟨250, [⟨"/videos/5", "Kept clip", "video", [⟨"hd", "720p", 7, 1280, 720⟩],
    none⟩], true⟩

/-- Witness for C6: a successful first page (with a retained video) followed
by a second page whose six attempts are all quota-rejected. -/
theorem C6_allQuota_allOrNothing_witness :
    (fetchAllData [[Response.success c6GoodPage],
        List.replicate 6 (Response.rateLimited none)]).videos = [] ∧
    (fetchAllData [[Response.success c6GoodPage],
        List.replicate 6 (Response.rateLimited none)]).folders = [] ∧
    (fetchAllData [[Response.success c6GoodPage],
        List.replicate 6 (Response.rateLimited none)]).status = .error ∧
    (fetchAllData [[Response.success c6GoodPage],
        List.replicate 6 (Response.rateLimited none)]).errorMessage =
      some "Error: Rate limit exceeded. Please wait a few minutes and try again." :=
  C6_allQuota_allOrNothing [[Response.success c6GoodPage]]
    (List.replicate 6 (Response.rateLimited none)) []
    (fun s hs => ⟨c6GoodPage, [], by rw [List.mem_singleton] at hs; rw [hs]; rfl,
      rfl⟩)
    (fun r hr => ⟨none, List.eq_of_mem_replicate hr⟩) (by decide)

/-- Concrete download list refuting claim C1: the first (seed) rendition is
flagged "source" and is the largest. -/
def c1Download : List VimeoDownload :=
  [⟨"source", "source", 10, 1920, 1080⟩,
   ⟨"hd", "1080p", 8, 1920, 1080⟩,
   ⟨"sd", "720p", 9, 1280, 720⟩]

/-- Concrete retained (type "video") entry carrying `c1Download`. -/
def c1RawVideo : VimeoVideoRaw :=
  ⟨"/videos/111", "Clip", "video", c1Download, none⟩

/-- Claim C1 (code bug): for this retained entry the non-source renditions
have sizes [8, 9], so the claimed derived fileSize is 9 — but the code
derives 10, the size of the "source"-flagged first rendition, because the
reduce over the filtered list is seeded with the unfiltered
`video.download[0]`.  This contradicts the code's own comment ("largest
download (excluding 'source')"). -/
theorem C1_fileSize_source_seed_bug :
    (processVideoEntry c1RawVideo []).1.fileSize = some 10 ∧
    computeFileSize c1Download = some 10 ∧
    (c1Download.filter (fun d => d.rendition != "source")).map (·.size) = [8, 9] ∧
    c1Download.head?.map (·.rendition) = some "source" := by
  refine ⟨rfl, rfl, by decide, rfl⟩

/-- Concrete folder with ancestor chain [B, A] (immediate-parent-first) and
own name "C", for claim C10. -/
def c10Folder : ParentFolder :=
  ⟨"/users/1/projects/77", "C",
    [⟨"/users/1/projects/66", "B"⟩, ⟨"/users/1/projects/55", "A"⟩]⟩

/-- Concrete retained entry contained in `c10Folder`. -/
def c10RawVideo : VimeoVideoRaw :=
  ⟨"/videos/222", "Talk", "video", [], some c10Folder⟩

/-- Claim C10: the ancestor chain [{name:"B"},{name:"A"}]
(immediate-parent-first) is reversed into root-first order, the folder's own
name "C" is appended as the final segment, and the segments are joined with
"/", yielding the derived folder path "A/B/C" for the video. -/
theorem C10_folder_path_derivation :
    buildFolderPath c10Folder.ancestor_path c10Folder.name = "A/B/C" ∧
    (processVideoEntry c10RawVideo []).1.folderPath = some "A/B/C" ∧
    (processVideoEntry c10RawVideo []).2 = [("77", ⟨"C", "A/B/C"⟩)] := by
  refine ⟨by decide, by decide, by decide⟩

/-! ### Orchestrator: data model (App component) -/

/-- `ImportStage` of the orchestrator. -/
inductive ImportStage where
  | checking
  | fetching_vimeo
  | downloading
  | creating_video
  | uploading
  | uploading_thumbnail
  | polling
  | complete
  | error
deriving DecidableEq

/-- One entry of `VimeoVideoData.download` (App side). -/
structure DownloadOption where
  quality : String
  type : String
  width : Nat
  height : Nat
  size : Nat
  link : String
  public_name : String
  rendition : String
deriving DecidableEq

/-- One entry of `pictures.sizes`. -/
structure ThumbSize where
  width : Nat
  height : Nat
  link : String
deriving DecidableEq

/-- `pictures` of a Vimeo video. -/
structure Pictures where
  active : Bool
  type : String
  base_link : String
  sizes : List ThumbSize
deriving DecidableEq

/-- `VimeoVideoData` fetched per import.  The optional `download?` array is
modelled as a list ([] for absent), matching the guard
`!vimeoData.download || vimeoData.download.length === 0`. -/
structure VimeoVideoData where
  name : String
  description : String
  duration : Nat
  width : Nat
  height : Nat
  download : List DownloadOption
  pictures : Option Pictures
deriving DecidableEq

/-- Snapshot of the user-chosen options captured at item creation. -/
structure ImportOptions where
  visibility : String
  language : String
  autoTranscribe : Bool
  tags : String
  categoryId : String
deriving DecidableEq

/-- `ImportItem`: one requested transfer.  `progress` is ℚ because the
source computes fractional values such as `15 + percent * 0.35` (the
float arithmetic is idealised as exact rationals). -/
structure ImportItem where
  id : String
  vimeoId : String
  stage : ImportStage
  progress : Rat
  statusText : String
  vimeoData : Option VimeoVideoData
  igniteVideoId : Option String
  thumbnailUrl : Option String
  errorMessage : Option String
  options : ImportOptions
deriving DecidableEq

/-- Source constant `RESUMABLE_STAGES`. -/
def RESUMABLE_STAGES : List ImportStage := [.polling]

/-- Source constant `FINAL_STAGES`. -/
def FINAL_STAGES : List ImportStage := [.complete, .error]

/-- Error raised by a request, as classified by `extractAxiosError`:
a response with an HTTP status (message already extracted from its body),
a request that got no response, or a client-side failure / thrown `Error`
carrying a message. -/
inductive ReqError where
  | httpStatus (status : Nat) (message : String)
  | noResponse
  | clientError (message : String)
deriving DecidableEq

/-- `extractAxiosError`. -/
def extractAxiosError : ReqError → String
  | .httpStatus status message => toString status ++ ": " ++ message
  | .noResponse => "No response from server"
  | .clientError message => if message = "" then "Unknown error" else message

/-- Outcome of one awaited request in the import pipeline. -/
inductive ReqResult (α : Type) where
  | ok (value : α)
  | rejected (error : ReqError)
deriving DecidableEq

/-- `checkExistingVimeoImport`: a rejected duplicate pre-check request is
caught (`console.warn`) and reported as `{ exists: false }`; otherwise the
matching record's (id, title) is returned when one exists. -/
def checkExistingVimeoImport :
    ReqResult (Option (String × String)) → Option (String × String)
  | .ok r => r
  | .rejected _ => none

/-- `formatBytes` (display only): the source formats with `Math.log` and a
one-decimal float; this Nat approximation keeps the same unit scale. -/
def formatBytes (bytes : Nat) : String :=
  if bytes = 0 then "0 B"
  else
    let sizes := ["B", "KB", "MB", "GB"]
    let i := Nat.log 1024 bytes
    toString (bytes / 1024 ^ i) ++ " " ++ sizes.getD i ""

/-- The filter step of the rendition selection:
`vimeoData.download.filter((d) => d.public_name !== 'source')`. -/
def downloadOptionsOf (download : List DownloadOption) : List DownloadOption :=
  download.filter (fun d => d.public_name != "source")

/-- The reduce step of the rendition selection:
`downloadOptions.reduce((largest, current) => current.size > largest.size ?
current : largest)` — seedless reduce, so the head of the (non-empty)
filtered list is the initial accumulator and a strict comparison keeps the
first maximum on ties. -/
def reduceLargest (f0 : DownloadOption) (fs : List DownloadOption) :
    DownloadOption :=
  fs.foldl (fun largest current =>
    if current.size > largest.size then current else largest) f0

/-- The complete rendition selection of `runImport` (`none` when the filter
leaves no candidate, which the source turns into a thrown error). -/
def selectedDownloadOf (download : List DownloadOption) : Option DownloadOption :=
  match downloadOptionsOf download with
  | [] => none
  | f0 :: fs => some (reduceLargest f0 fs)

/-! ### Orchestrator: the runImport trace -/

/-- One `updateImport` call: the fields written by the spread
`{ ...prev, field: value }` (outer `some` = field written). -/
structure ItemPatch where
  stage : Option ImportStage := none
  progress : Option Rat := none
  statusText : Option String := none
  vimeoData : Option VimeoVideoData := none
  igniteVideoId : Option String := none
  thumbnailUrl : Option (Option String) := none
  errorMessage : Option (Option String) := none
deriving DecidableEq

/-- Apply a patch to an item (the `updateImport` updater). -/
def applyPatch (p : ItemPatch) (item : ImportItem) : ImportItem :=
  { item with
    stage := p.stage.getD item.stage
    progress := p.progress.getD item.progress
    statusText := p.statusText.getD item.statusText
    vimeoData := match p.vimeoData with
      | some v => some v
      | none => item.vimeoData
    igniteVideoId := match p.igniteVideoId with
      | some v => some v
      | none => item.igniteVideoId
    thumbnailUrl := p.thumbnailUrl.getD item.thumbnailUrl
    errorMessage := p.errorMessage.getD item.errorMessage }

/-- One observable action of `runImport`: an `updateImport` patch, the
`pollVideoStatus` registration, or the timer clear in the catch block. -/
inductive RunEvent where
  | patch (p : ItemPatch)
  | registerPoll (videoId : String)
  | clearPoll
deriving DecidableEq

/-- Step-0 status patch. -/
def checkingEvent : RunEvent :=
  .patch { statusText := some "Checking for existing import..." }

/-- Step-1 stage patch. -/
def fetchingEvent : RunEvent :=
  .patch { stage := some .fetching_vimeo,
           statusText := some "Fetching Vimeo data...", progress := some 5 }

/-- Cache of the fetched metadata. -/
def vimeoDataEvent (vd : VimeoVideoData) : RunEvent :=
  .patch { vimeoData := some vd, progress := some 10 }

/-- Step-2 stage patch. -/
def downloadingEvent (size : Nat) : RunEvent :=
  .patch { stage := some .downloading,
           statusText := some ("Downloading (" ++ formatBytes size ++ ")..."),
           progress := some 15 }

/-- One `onDownloadProgress` callback at integer percent `pct`. -/
def downloadTickEvent (pct : Nat) : RunEvent :=
  .patch { progress := some (15 + (pct : Rat) * (35 / 100)),
           statusText := some ("Downloading... " ++ toString pct ++ "%") }

/-- Step-3 stage patch. -/
def creatingEvent : RunEvent :=
  .patch { stage := some .creating_video,
           statusText := some "Creating video in Ignite...", progress := some 52 }

/-- Record-created patch. -/
def createdEvent (igniteVideoId : String) : RunEvent :=
  .patch { igniteVideoId := some igniteVideoId, progress := some 55 }

/-- Step-4 stage patch. -/
def uploadingEvent : RunEvent :=
  .patch { stage := some .uploading, statusText := some "Uploading to Ignite..." }

/-- One `onUploadProgress` callback at integer percent `pct`. -/
def uploadTickEvent (pct : Nat) : RunEvent :=
  .patch { progress := some (55 + (pct : Rat) * (35 / 100)),
           statusText := some ("Uploading... " ++ toString pct ++ "%") }

/-- Step-5 stage patch. -/
def thumbStageEvent : RunEvent :=
  .patch { stage := some .uploading_thumbnail,
           statusText := some "Uploading thumbnail...", progress := some 92 }

/-- Successful thumbnail transfer patch. -/
def thumbDoneEvent (url : String) : RunEvent :=
  .patch { thumbnailUrl := some (some url), progress := some 95 }

/-- Step-6 stage patch; writes the local `thumbnailUrl` variable (null when
the thumbnail was skipped or its transfer failed). -/
def pollingEvent (thumbnailUrl : Option String) : RunEvent :=
  .patch { stage := some .polling, statusText := some "Processing...",
           progress := some 98, thumbnailUrl := some thumbnailUrl }

/-- The catch-block patch of `runImport`. -/
def errPatch (e : ReqError) : ItemPatch :=
  { stage := some .error,
    errorMessage := some (some (extractAxiosError e)),
    statusText := some "Failed" }

/-- Request oracle for one `runImport` call: the outcome of each awaited
request, plus the integer percents at which the progress callbacks fire. -/
structure ImportOracle where
  precheck : ReqResult (Option (String × String))
  vimeo : ReqResult VimeoVideoData
  downloadTicks : List Nat
  downloadResult : ReqResult Unit
  createResult : ReqResult (String × String)
  uploadTicks : List Nat
  uploadResult : ReqResult Unit
  thumbDownload : ReqResult Unit
  thumbUpload : ReqResult String
deriving DecidableEq

/-- Step 5 of `runImport` (thumbnail, conditional): entered only when
`pictures?.active` and `sizes.length > 0`; any failure inside the inner try
is caught and logged, leaving the local `thumbnailUrl` null.  Returns the
emitted events and the final value of the local `thumbnailUrl`. -/
def thumbnailPhase (o : ImportOracle) (vimeoData : VimeoVideoData) :
    List RunEvent × Option String :=
  match vimeoData.pictures with
  | none => ([], none)
  | some pics =>
    if pics.active && !pics.sizes.isEmpty then
      match o.thumbDownload with
      | .rejected _ => ([thumbStageEvent], none)
      | .ok _ =>
        match o.thumbUpload with
        | .rejected _ => ([thumbStageEvent], none)
        | .ok url => ([thumbStageEvent, thumbDoneEvent url], some url)
    else ([], none)

/-- The try block of `runImport`: the events emitted in order, paired with
the error thrown (if any).  Each `match` mirrors one awaited request or
validation of the source, in source order. -/
def runImportTry (o : ImportOracle) (itemVimeoId : String) :
    List RunEvent × Option ReqError :=
  match checkExistingVimeoImport o.precheck with
  | some ex =>
    ([checkingEvent],
      some (.clientError
        ("Already imported (ID: " ++ ex.1 ++ ", Title: \"" ++ ex.2 ++ "\")")))
  | none =>
    match o.vimeo with
    | .rejected e => ([checkingEvent, fetchingEvent], some e)
    | .ok vimeoData =>
      if vimeoData.download.isEmpty then
        ([checkingEvent, fetchingEvent, vimeoDataEvent vimeoData],
          some (.clientError "No download links available."))
      else
        match downloadOptionsOf vimeoData.download with
        | [] =>
          ([checkingEvent, fetchingEvent, vimeoDataEvent vimeoData],
            some (.clientError "No suitable download rendition found."))
        | f0 :: fs =>
          let selectedDownload := reduceLargest f0 fs
          let dlTicks := o.downloadTicks.map downloadTickEvent
          match o.downloadResult with
          | .rejected e =>
            ([checkingEvent, fetchingEvent, vimeoDataEvent vimeoData,
              downloadingEvent selectedDownload.size] ++ dlTicks, some e)
          | .ok _ =>
            match o.createResult with
            | .rejected e =>
              ([checkingEvent, fetchingEvent, vimeoDataEvent vimeoData,
                downloadingEvent selectedDownload.size] ++ dlTicks ++
                [creatingEvent], some e)
            | .ok cr =>
              let igniteVideoId := cr.1
              let upTicks := o.uploadTicks.map uploadTickEvent
              match o.uploadResult with
              | .rejected e =>
                ([checkingEvent, fetchingEvent, vimeoDataEvent vimeoData,
                  downloadingEvent selectedDownload.size] ++ dlTicks ++
                  [creatingEvent, createdEvent igniteVideoId, uploadingEvent] ++
                  upTicks, some e)
              | .ok _ =>
                let tr := thumbnailPhase o vimeoData
                ([checkingEvent, fetchingEvent, vimeoDataEvent vimeoData,
                  downloadingEvent selectedDownload.size] ++ dlTicks ++
                  [creatingEvent, createdEvent igniteVideoId, uploadingEvent] ++
                  upTicks ++ tr.1 ++
                  [pollingEvent tr.2, .registerPoll igniteVideoId], none)

/-- `runImport`: the try block followed, when an error was thrown, by the
catch block (error patch, then conditional clear of this item's timer). -/
def runImport (o : ImportOracle) (itemVimeoId : String) : List RunEvent :=
  match runImportTry o itemVimeoId with
  | (evs, none) => evs
  | (evs, some e) => evs ++ [.patch (errPatch e), .clearPoll]

/-- Fold a trace's patches over a single item (`registerPoll` / `clearPoll`
do not touch item fields). -/
def applyEventsToItem (item : ImportItem) (evs : List RunEvent) : ImportItem :=
  evs.foldl
    (fun it ev => match ev with
      | .patch p => applyPatch p it
      | _ => it) item

/-- The stages assigned by a trace, in order. -/
def stagesEntered (evs : List RunEvent) : List ImportStage :=
  evs.filterMap
    (fun ev => match ev with
      | .patch p => p.stage
      | _ => none)

/-! ### Orchestrator: application state and operations -/

/-- Whole application state: the `imports` list, the `pollTimersRef` map
(import id → timer id), the set of live `setInterval` handles (timer id
paired with the import id its callback closes over), the next fresh timer
handle, and the `resumedPollingIds` set. -/
structure AppState where
  imports : List ImportItem
  timerMap : List (String × Nat)
  live : List (Nat × String)
  nextTimer : Nat
  resumed : List String
deriving DecidableEq

/-- Fresh state of a new browser session. -/
def initialState : AppState := ⟨[], [], [], 0, []⟩

/-- `pollTimersRef.current.get(id)`. -/
def lookupTimer (id : String) : List (String × Nat) → Option Nat
  | [] => none
  | (k, v) :: rest => if k = id then some v else lookupTimer id rest

/-- `pollTimersRef.current.delete(id)`. -/
def removeTimerKey (id : String) : List (String × Nat) → List (String × Nat)
  | [] => []
  | (k, v) :: rest =>
    if k = id then removeTimerKey id rest
    else (k, v) :: removeTimerKey id rest

/-- `window.clearInterval(t)`: the handle stops being live. -/
def clearIntervalIn (t : Nat) : List (Nat × String) → List (Nat × String)
  | [] => []
  | (u, k) :: rest =>
    if u = t then clearIntervalIn t rest
    else (u, k) :: clearIntervalIn t rest

/-- `updateImport`: apply an updater to the item(s) with the given id. -/
def updateImport (id : String) (f : ImportItem → ImportItem)
    (items : List ImportItem) : List ImportItem :=
  items.map (fun item => if item.id = id then f item else item)

/-- The registration part of `pollVideoStatus`: clear any existing timer for
this import, start a fresh interval, record its handle in the map. -/
def pollVideoStatus (importId : String) (s : AppState) : AppState :=
  let live1 := match lookupTimer importId s.timerMap with
    | some t => clearIntervalIn t s.live
    | none => s.live
  { s with
    live := (s.nextTimer, importId) :: live1
    timerMap := (importId, s.nextTimer) :: removeTimerKey importId s.timerMap
    nextTimer := s.nextTimer + 1 }

/-- `doneStatuses` of the poll callback. -/
def doneStatuses : List String := ["COMPLETE", "COMPLETED", "READY", "ENCODED"]

/-- `errorStatuses` of the poll callback. -/
def errorStatuses : List String := ["FAILED", "ERROR"]

/-- Outcome of one poll tick's status request: rejected, or a status string
(upper-cased by the source before classification). -/
inductive TickOutcome where
  | rejected
  | status (st : String)
deriving DecidableEq

/-- The terminal branches of the poll callback: clear the interval if one is
recorded, then delete the map entry unconditionally. -/
def clearTimerUncond (id : String) (s : AppState) : AppState :=
  { s with
    live := match lookupTimer id s.timerMap with
      | some t => clearIntervalIn t s.live
      | none => s.live
    timerMap := removeTimerKey id s.timerMap }

/-- The conditional clear (`if (t) { clearInterval(t); delete(id) }`) used by
the catch block of `runImport`, `removeImport` and `clearFinished`. -/
def clearTimerCond (id : String) (s : AppState) : AppState :=
  match lookupTimer id s.timerMap with
  | some t =>
    { s with live := clearIntervalIn t s.live
             timerMap := removeTimerKey id s.timerMap }
  | none => s

/-- One execution of the poll callback `run` for `importId`: a rejected
status request is caught and logged (no state change); otherwise the status
text is updated, and a status in the done (resp. error) set additionally
completes (resp. fails) the item and cancels its timer. -/
def applyTick (importId : String) (out : TickOutcome) (s : AppState) :
    AppState :=
  match out with
  | .rejected => s
  | .status st =>
    let fText : ImportItem → ImportItem :=
      fun prev => { prev with statusText := "Processing: " ++ st }
    let fDone : ImportItem → ImportItem :=
      fun prev => { prev with stage := .complete, statusText := "Import complete!", progress := 100 }
    let fErr : ImportItem → ImportItem :=
      fun prev => { prev with stage := .error, errorMessage := some ("Encoding failed: " ++ st) }
    let s1 := { s with imports := updateImport importId fText s.imports }
    if st ∈ doneStatuses then
      clearTimerUncond importId
        { s1 with imports := updateImport importId fDone s1.imports }
    else if st ∈ errorStatuses then
      clearTimerUncond importId
        { s1 with imports := updateImport importId fErr s1.imports }
    else s1

/-- Apply one `runImport` event for item `id` to the application state. -/
def applyRunEvent (id : String) (s : AppState) (ev : RunEvent) : AppState :=
  match ev with
  | .patch p => { s with imports := updateImport id (applyPatch p) s.imports }
  | .registerPoll _ => pollVideoStatus id s
  | .clearPoll => clearTimerCond id s

/-- Apply a `runImport` trace in order. -/
def applyRunEvents (id : String) (evs : List RunEvent) (s : AppState) :
    AppState :=
  evs.foldl (applyRunEvent id) s

/-- The fresh item built by `startImport`. -/
def mkImportItem (id vimeoId : String) (options : ImportOptions) : ImportItem :=
  { id := id, vimeoId := vimeoId, stage := .checking, progress := 0,
    statusText := "Starting...", vimeoData := none, igniteVideoId := none,
    thumbnailUrl := none, errorMessage := none, options := options }

/-- `startImport` followed by the whole `runImport` call for the new item:
the item is prepended to the queue and the trace is applied. -/
def startImport (id vimeoId : String) (options : ImportOptions)
    (o : ImportOracle) (s : AppState) : AppState :=
  applyRunEvents id (runImport o vimeoId)
    { s with imports := mkImportItem id vimeoId options :: s.imports }

/-- `removeImport`: cancel the item's timer (if any) and drop the item. -/
def removeImport (id : String) (s : AppState) : AppState :=
  let s1 := clearTimerCond id s
  { s1 with imports := s1.imports.filter (fun item => item.id != id) }

/-- `clearFinished`: cancel the timers of all terminal items, then drop all
terminal items. -/
def clearFinished (s : AppState) : AppState :=
  let s1 := s.imports.foldl
    (fun acc item =>
      if item.stage = .complete ∨ item.stage = .error then
        clearTimerCond item.id acc
      else acc) s
  let keep : ImportItem → Bool :=
    fun item => decide (item.stage ≠ .complete ∧ item.stage ≠ .error)
  { s1 with imports := s1.imports.filter keep }

/-- The load effect's treatment of one persisted item: terminal and
resumable stages are kept unchanged, anything else was interrupted
mid-process and is reclassified to `error`. -/
def processLoadedItem (item : ImportItem) : ImportItem :=
  if item.stage ∈ FINAL_STAGES ∨ item.stage ∈ RESUMABLE_STAGES then item
  else
    { item with stage := .error, errorMessage := some "Import was interrupted. Please try again.", statusText := "Interrupted" }

/-- Process restart: the persisted collection is re-loaded through
`processLoadedItem`; timers, fresh handles and the resumed set start empty
in the new session. -/
def loadFromStorage (persisted : List ImportItem) : AppState :=
  { imports := persisted.map processLoadedItem, timerMap := [], live := [],
    nextTimer := 0, resumed := [] }

/-- One iteration of the resume-polling effect's `forEach`: re-register
polling for an item in `polling` stage with a destination id that has not
been resumed yet and has no live timer. -/
def resumeStep (s : AppState) (item : ImportItem) : AppState :=
  if item.stage = .polling ∧ item.igniteVideoId.isSome ∧
      item.id ∉ s.resumed ∧ lookupTimer item.id s.timerMap = none then
    pollVideoStatus item.id { s with resumed := item.id :: s.resumed }
  else s

/-- The resume-polling effect: iterate over the current imports. -/
def resumePolling (s : AppState) : AppState :=
  s.imports.foldl resumeStep s

/-- Number of live interval handles carrying an import id. -/
def countHandles (id : String) : List (Nat × String) → Nat
  | [] => 0
  | (_, k) :: rest => (if k = id then 1 else 0) + countHandles id rest

/-- Number of live interval handles registered under an import id. -/
def liveCountFor (id : String) (s : AppState) : Nat :=
  countHandles id s.live

/-! ### Orchestrator: transition system -/

/-- Atomic observable steps of the application.  `start` creates a fresh
item (ids are unique by construction, §3 of the design: `Date.now()`-based)
and runs its whole import pipeline; `tick` fires the poll callback of a
live timer; the remaining steps are user removal, bulk clear, process
restart (persist current imports, reload) and the resume-polling effect. -/
inductive Step : AppState → AppState → Prop where
  | start {s : AppState} (id vimeoId : String) (options : ImportOptions)
      (o : ImportOracle) (hfresh : ∀ item ∈ s.imports, item.id ≠ id) :
      Step s (startImport id vimeoId options o s)
  | tick {s : AppState} (id : String) (out : TickOutcome)
      (hlive : (lookupTimer id s.timerMap).isSome = true) :
      Step s (applyTick id out s)
  | remove {s : AppState} (id : String) : Step s (removeImport id s)
  | clear {s : AppState} : Step s (clearFinished s)
  | restart {s : AppState} : Step s (loadFromStorage s.imports)
  | resume {s : AppState} : Step s (resumePolling s)

/-- States reachable from a fresh session. -/
inductive Reachable : AppState → Prop where
  | init : Reachable initialState
  | step {s t : AppState} : Reachable s → Step s t → Reachable t

/-! ### Trace-level lemmas -/

/-- Unfolding of the seedless reduce on a cons. -/
theorem reduceLargest_cons (f0 c : DownloadOption) (rest : List DownloadOption) :
    reduceLargest f0 (c :: rest) =
      reduceLargest (if c.size > f0.size then c else f0) rest := rfl

/-- The seedless strict-greater reduce returns the first size-maximal
element of the (non-empty) list: every element's size is bounded by the
result's, and the list splits around the result with every earlier element
strictly smaller. -/
theorem reduceLargest_spec (f0 : DownloadOption) (fs : List DownloadOption) :
    (∀ x ∈ f0 :: fs, x.size ≤ (reduceLargest f0 fs).size) ∧
    ∃ l1 l2, f0 :: fs = l1 ++ reduceLargest f0 fs :: l2 ∧
      ∀ x ∈ l1, x.size < (reduceLargest f0 fs).size := by
  induction fs generalizing f0 with
  | nil =>
    refine ⟨?_, [], [], rfl, by simp⟩
    intro x hx
    rw [List.mem_singleton] at hx
    subst hx
    exact le_refl _
  | cons c rest ih =>
    rw [reduceLargest_cons]
    by_cases h : c.size > f0.size
    · rw [if_pos h]
      obtain ⟨hle, l1, l2, hdec, hlt⟩ := ih c
      have hcr : c.size ≤ (reduceLargest c rest).size :=
        hle c (List.mem_cons_self _ _)
      have hf0 : f0.size < (reduceLargest c rest).size := lt_of_lt_of_le h hcr
      refine ⟨?_, f0 :: l1, l2, ?_, ?_⟩
      · intro x hx
        rcases List.mem_cons.mp hx with rfl | hx'
        · exact le_of_lt hf0
        · exact hle x hx'
      · simpa [List.cons_append] using congrArg (f0 :: ·) hdec
      · intro x hx
        rcases List.mem_cons.mp hx with rfl | hx'
        · exact hf0
        · exact hlt x hx'
    · rw [if_neg h]
      have hcf : c.size ≤ f0.size := Nat.le_of_not_lt h
      obtain ⟨hle, l1, l2, hdec, hlt⟩ := ih f0
      have hmax : ∀ x ∈ f0 :: c :: rest, x.size ≤ (reduceLargest f0 rest).size := by
        intro x hx
        rcases List.mem_cons.mp hx with rfl | hx'
        · exact hle x (List.mem_cons_self _ _)
        · rcases List.mem_cons.mp hx' with rfl | hx''
          · exact le_trans hcf (hle f0 (List.mem_cons_self _ _))
          · exact hle x (List.mem_cons_of_mem _ hx'')
      refine ⟨hmax, ?_⟩
      cases l1 with
      | nil =>
        have hr : f0 = reduceLargest f0 rest := by
          have := hdec
          simp only [List.nil_append, List.cons.injEq] at this
          exact this.1
        refine ⟨[], c :: rest, ?_, by simp⟩
        rw [List.nil_append, ← hr]
      | cons a l1' =>
        have hinj : a = f0 ∧ rest = l1' ++ reduceLargest f0 rest :: l2 := by
          have := hdec
          simp only [List.cons_append, List.cons.injEq] at this
          exact ⟨this.1.symm, this.2⟩
        obtain ⟨rfl, hrest⟩ := hinj
        have haf : a.size < (reduceLargest a rest).size :=
          hlt a (List.mem_cons_self _ _)
        refine ⟨a :: c :: l1', l2, ?_, ?_⟩
        · rw [List.cons_append, List.cons_append, ← hrest]
        · intro x hx
          rcases List.mem_cons.mp hx with rfl | hx'
          · exact haf
          · rcases List.mem_cons.mp hx' with rfl | hx''
            · exact lt_of_le_of_lt hcf haf
            · exact hlt x (List.mem_cons_of_mem _ hx'')

/-- The concrete rendition list of claim C8 ("name" = `public_name`). -/
def c8List : List DownloadOption :=
  [⟨"source", "video/mp4", 1920, 1080, 10, "l1", "source", "source"⟩,
   ⟨"hd", "video/mp4", 1280, 720, 8, "l2", "hd720", "720p"⟩,
   ⟨"hd", "video/mp4", 1920, 1080, 9, "l3", "hd1080", "1080p"⟩]

/-- The rendition of size 9 that the selection must pick on `c8List`. -/
def c8Pick : DownloadOption :=
  ⟨"hd", "video/mp4", 1920, 1080, 9, "l3", "hd1080", "1080p"⟩

/-- Claim C8: on `[{size:10,name:"source"},{size:8},{size:9}]` the selection
picks the size-9 rendition; in general the selection first removes every
"source"-flagged rendition and then returns the first size-maximal element
of the remainder (every remaining rendition is no larger, and everything
before the pick is strictly smaller). -/
theorem C8_rendition_selection :
    selectedDownloadOf c8List = some c8Pick ∧
    (selectedDownloadOf c8List).map (·.size) = some 9 ∧
    ∀ ds r, selectedDownloadOf ds = some r →
      r ∈ downloadOptionsOf ds ∧ r.public_name ≠ "source" ∧
      (∀ x ∈ downloadOptionsOf ds, x.size ≤ r.size) ∧
      ∃ l1 l2, downloadOptionsOf ds = l1 ++ r :: l2 ∧
        ∀ x ∈ l1, x.size < r.size := by
  refine ⟨rfl, rfl, ?_⟩
  intro ds r h
  unfold selectedDownloadOf at h
  rcases hopt : downloadOptionsOf ds with _ | ⟨f0, fs⟩
  · rw [hopt] at h
    exact absurd h (by simp)
  · rw [hopt] at h
    have hr : r = reduceLargest f0 fs := by
      simpa using h.symm
    subst hr
    obtain ⟨hle, l1, l2, hdec, hlt⟩ := reduceLargest_spec f0 fs
    have hmem : reduceLargest f0 fs ∈ f0 :: fs := by
      rw [hdec]
      exact List.mem_append_right _ (List.mem_cons_self _ _)
    refine ⟨hmem, ?_, hle, l1, l2, hdec, hlt⟩
    have hmem2 : reduceLargest f0 fs ∈
        ds.filter (fun d => d.public_name != "source") := by
      have hdown : reduceLargest f0 fs ∈ downloadOptionsOf ds := by
        rw [hopt]
        exact hmem
      simpa [downloadOptionsOf] using hdown
    have hpn := (List.mem_filter.mp hmem2).2
    simpa using hpn

/-- Witness for C8 at the concrete list: the selected rendition is size-9,
lives in the source-free sublist, dominates it, and everything before it is
strictly smaller. -/
theorem C8_rendition_selection_witness :
    c8Pick ∈ downloadOptionsOf c8List ∧ c8Pick.public_name ≠ "source" ∧
    (∀ x ∈ downloadOptionsOf c8List, x.size ≤ c8Pick.size) ∧
    ∃ l1 l2, downloadOptionsOf c8List = l1 ++ c8Pick :: l2 ∧
      ∀ x ∈ l1, x.size < c8Pick.size :=
  C8_rendition_selection.2.2 c8List c8Pick rfl

/-- Folding a trace over an item splits along list append. -/
theorem applyEventsToItem_append (item : ImportItem) (l1 l2 : List RunEvent) :
    applyEventsToItem item (l1 ++ l2) =
      applyEventsToItem (applyEventsToItem item l1) l2 := by
  simp [applyEventsToItem, List.foldl_append]

/-- The duplicate-import message is never the empty string, so
`extractAxiosError` surfaces it verbatim. -/
theorem dupMessage_ne_empty (exId exTitle : String) :
    ("Already imported (ID: " ++ exId ++ ", Title: \"" ++ exTitle ++ "\")") ≠ "" := by
  intro heq
  have hlen := congrArg String.length heq
  simp only [String.length_append] at hlen
  have h22 : ("Already imported (ID: " : String).length = 22 := rfl
  have h0 : ("" : String).length = 0 := rfl
  omega

/-- Whenever the try block of `runImport` throws, the catch block runs: the
item lands in stage `error` with the extracted message, and the trace is the
try-block prefix followed by exactly the error patch and the timer clear
(nothing retries the item). -/
theorem runImport_error_final (o : ImportOracle) (vid : String)
    (item : ImportItem) (e : ReqError)
    (h : (runImportTry o vid).2 = some e) :
    (applyEventsToItem item (runImport o vid)).stage = .error ∧
    (applyEventsToItem item (runImport o vid)).errorMessage =
      some (extractAxiosError e) ∧
    runImport o vid = (runImportTry o vid).1 ++ [.patch (errPatch e), .clearPoll] := by
  rcases hpair : runImportTry o vid with ⟨evs, r⟩
  rw [hpair] at h
  simp only at h
  subst h
  have hrun : runImport o vid = evs ++ [.patch (errPatch e), .clearPoll] := by
    simp [runImport, hpair]
  rw [hrun, applyEventsToItem_append]
  refine ⟨?_, ?_, by simp [hpair, hrun]⟩
  · simp [applyEventsToItem, applyPatch, errPatch]
  · simp [applyEventsToItem, applyPatch, errPatch]

/-- Claim C5: when the duplicate pre-check finds an existing record with the
item's source id, the only stage assigned by the whole pipeline trace is
`error` (in particular `fetching_vimeo`, the code's name for the spec's
`fetching_metadata` stage, is never entered, so the item goes straight from
its initial `checking` stage to `error`), and the error message carries the
existing record's id and title verbatim. -/
theorem C5_duplicate_hard_stop (o : ImportOracle) (vid exId exTitle : String)
    (item : ImportItem) (h : o.precheck = .ok (some (exId, exTitle))) :
    stagesEntered (runImport o vid) = [.error] ∧
    ImportStage.fetching_vimeo ∉ stagesEntered (runImport o vid) ∧
    (applyEventsToItem item (runImport o vid)).stage = .error ∧
    (applyEventsToItem item (runImport o vid)).errorMessage =
      some ("Already imported (ID: " ++ exId ++ ", Title: \"" ++ exTitle ++ "\")") := by
  have hrun : runImport o vid =
      [checkingEvent,
       .patch (errPatch (.clientError
         ("Already imported (ID: " ++ exId ++ ", Title: \"" ++ exTitle ++ "\")"))),
       .clearPoll] := by
    simp [runImport, runImportTry, checkExistingVimeoImport, h]
  rw [hrun]
  refine ⟨?_, ?_, ?_, ?_⟩
  · simp [stagesEntered, checkingEvent, errPatch]
  · simp [stagesEntered, checkingEvent, errPatch]
  · simp [applyEventsToItem, applyPatch, checkingEvent, errPatch]
  · simp [applyEventsToItem, applyPatch, checkingEvent, errPatch,
      extractAxiosError, dupMessage_ne_empty exId exTitle]

/-- Options snapshot used by the concrete witnesses. -/
def defaultOptions : ImportOptions := ⟨"private", "", false, "", ""⟩

/-- Concrete oracle whose duplicate pre-check finds record ("ex1", "Old"). -/
def c5Oracle : ImportOracle :=
  { precheck := .ok (some ("ex1", "Old")),
    vimeo := .rejected .noResponse, downloadTicks := [],
    downloadResult := .ok (), createResult := .ok ("ig", "u"),
    uploadTicks := [], uploadResult := .ok (), thumbDownload := .ok (),
    thumbUpload := .ok "t" }

/-- Witness for C5 at the concrete duplicate. -/
theorem C5_duplicate_hard_stop_witness :
    stagesEntered (runImport c5Oracle "v5") = [.error] ∧
    ImportStage.fetching_vimeo ∉ stagesEntered (runImport c5Oracle "v5") ∧
    (applyEventsToItem (mkImportItem "i5" "v5" defaultOptions)
      (runImport c5Oracle "v5")).stage = .error ∧
    (applyEventsToItem (mkImportItem "i5" "v5" defaultOptions)
      (runImport c5Oracle "v5")).errorMessage =
      some ("Already imported (ID: " ++ "ex1" ++ ", Title: \"" ++ "Old" ++ "\")") :=
  C5_duplicate_hard_stop c5Oracle "v5" "ex1" "Old"
    (mkImportItem "i5" "v5" defaultOptions) rfl

/-- A rejected Vimeo metadata fetch makes the try block throw that error. -/
theorem runImportTry_vimeo_rejected (o : ImportOracle) (vid : String)
    (e : ReqError) (h1 : checkExistingVimeoImport o.precheck = none)
    (h2 : o.vimeo = .rejected e) :
    (runImportTry o vid).2 = some e := by
  simp [runImportTry, h1, h2]

/-- A rejected video download makes the try block throw that error. -/
theorem runImportTry_download_rejected (o : ImportOracle) (vid : String)
    (e : ReqError) (vd : VimeoVideoData) (f0 : DownloadOption)
    (fs : List DownloadOption)
    (h1 : checkExistingVimeoImport o.precheck = none) (h2 : o.vimeo = .ok vd)
    (h3 : downloadOptionsOf vd.download = f0 :: fs)
    (h4 : o.downloadResult = .rejected e) :
    (runImportTry o vid).2 = some e := by
  have hne : vd.download.isEmpty = false := by
    cases hdl : vd.download with
    | nil => rw [hdl] at h3; simp [downloadOptionsOf] at h3
    | cons a l => simp
  simp [runImportTry, h1, h2, hne, h3, h4]

/-- A rejected record creation makes the try block throw that error. -/
theorem runImportTry_create_rejected (o : ImportOracle) (vid : String)
    (e : ReqError) (vd : VimeoVideoData) (f0 : DownloadOption)
    (fs : List DownloadOption)
    (h1 : checkExistingVimeoImport o.precheck = none) (h2 : o.vimeo = .ok vd)
    (h3 : downloadOptionsOf vd.download = f0 :: fs)
    (h4 : o.downloadResult = .ok ()) (h5 : o.createResult = .rejected e) :
    (runImportTry o vid).2 = some e := by
  have hne : vd.download.isEmpty = false := by
    cases hdl : vd.download with
    | nil => rw [hdl] at h3; simp [downloadOptionsOf] at h3
    | cons a l => simp
  simp [runImportTry, h1, h2, hne, h3, h4, h5]

/-- A rejected binary upload makes the try block throw that error. -/
theorem runImportTry_upload_rejected (o : ImportOracle) (vid : String)
    (e : ReqError) (vd : VimeoVideoData) (f0 : DownloadOption)
    (fs : List DownloadOption) (cr : String × String)
    (h1 : checkExistingVimeoImport o.precheck = none) (h2 : o.vimeo = .ok vd)
    (h3 : downloadOptionsOf vd.download = f0 :: fs)
    (h4 : o.downloadResult = .ok ()) (h5 : o.createResult = .ok cr)
    (h6 : o.uploadResult = .rejected e) :
    (runImportTry o vid).2 = some e := by
  have hne : vd.download.isEmpty = false := by
    cases hdl : vd.download with
    | nil => rw [hdl] at h3; simp [downloadOptionsOf] at h3
    | cons a l => simp
  simp [runImportTry, h1, h2, hne, h3, h4, h5, h6]

/-- Claim C2 (amended): a request rejected in one of the pipeline's own
awaited steps — metadata fetch, binary download, record creation, binary
upload — always makes the item transition to `error` with the extracted
message surfaced and no automatic retry (the trace ends at the error patch
and timer clear).  However, the source deliberately swallows two
rejections the original claim also covered: a rejected duplicate pre-check
is caught inside `checkExistingVimeoImport` and treated as "no duplicate",
and a rejected per-tick status poll is caught inside the poll callback and
leaves the state entirely unchanged (the item stays `polling`, the timer
stays live). -/
theorem C2_rejected_requests :
    (∀ o vid item e, (runImportTry o vid).2 = some e →
      (applyEventsToItem item (runImport o vid)).stage = .error ∧
      (applyEventsToItem item (runImport o vid)).errorMessage =
        some (extractAxiosError e) ∧
      runImport o vid =
        (runImportTry o vid).1 ++ [.patch (errPatch e), .clearPoll]) ∧
    (∀ o vid e, checkExistingVimeoImport o.precheck = none →
      o.vimeo = .rejected e → (runImportTry o vid).2 = some e) ∧
    (∀ o vid e vd f0 fs, checkExistingVimeoImport o.precheck = none →
      o.vimeo = .ok vd → downloadOptionsOf vd.download = f0 :: fs →
      o.downloadResult = .rejected e → (runImportTry o vid).2 = some e) ∧
    (∀ o vid e vd f0 fs, checkExistingVimeoImport o.precheck = none →
      o.vimeo = .ok vd → downloadOptionsOf vd.download = f0 :: fs →
      o.downloadResult = .ok () → o.createResult = .rejected e →
      (runImportTry o vid).2 = some e) ∧
    (∀ o vid e vd f0 fs cr, checkExistingVimeoImport o.precheck = none →
      o.vimeo = .ok vd → downloadOptionsOf vd.download = f0 :: fs →
      o.downloadResult = .ok () → o.createResult = .ok cr →
      o.uploadResult = .rejected e → (runImportTry o vid).2 = some e) ∧
    (∀ e, checkExistingVimeoImport (.rejected e) = none) ∧
    (∀ id s, applyTick id .rejected s = s) := by
  refine ⟨?_, ?_, ?_, ?_, ?_, ?_, ?_⟩
  · intro o vid item e h
    exact runImport_error_final o vid item e h
  · intro o vid e h1 h2
    exact runImportTry_vimeo_rejected o vid e h1 h2
  · intro o vid e vd f0 fs h1 h2 h3 h4
    exact runImportTry_download_rejected o vid e vd f0 fs h1 h2 h3 h4
  · intro o vid e vd f0 fs h1 h2 h3 h4 h5
    exact runImportTry_create_rejected o vid e vd f0 fs h1 h2 h3 h4 h5
  · intro o vid e vd f0 fs cr h1 h2 h3 h4 h5 h6
    exact runImportTry_upload_rejected o vid e vd f0 fs cr h1 h2 h3 h4 h5 h6
  · intro e
    rfl
  · intro id s
    rfl

/-- Witness for C2 (amended): a concretely rejected metadata fetch. -/
theorem C2_rejected_requests_witness :
    (applyEventsToItem (mkImportItem "i2" "v2" defaultOptions)
      (runImport
        ⟨.ok none, .rejected (.httpStatus 401 "unauthorized"), [], .ok (),
          .ok ("ig", "u"), [], .ok (), .ok (), .ok "t"⟩ "v2")).stage = .error :=
  (C2_rejected_requests.1
    ⟨.ok none, .rejected (.httpStatus 401 "unauthorized"), [], .ok (),
      .ok ("ig", "u"), [], .ok (), .ok (), .ok "t"⟩ "v2"
    (mkImportItem "i2" "v2" defaultOptions) (.httpStatus 401 "unauthorized")
    (C2_rejected_requests.2.1
      ⟨.ok none, .rejected (.httpStatus 401 "unauthorized"), [], .ok (),
        .ok ("ig", "u"), [], .ok (), .ok (), .ok "t"⟩ "v2"
      (.httpStatus 401 "unauthorized") rfl rfl)).1

/-- Vimeo metadata used by the concrete counterexample runs. -/
def cexVimeoData : VimeoVideoData :=
  { name := "Video", description := "", duration := 60, width := 1280,
    height := 720,
    download := [⟨"hd", "video/mp4", 1280, 720, 500, "d1", "hd720", "720p"⟩],
    pictures := none }

/-- Oracle whose duplicate pre-check request is REJECTED and whose remaining
requests all succeed. -/
def c2Oracle : ImportOracle :=
  { precheck := .rejected (.httpStatus 500 "server error"),
    vimeo := .ok cexVimeoData, downloadTicks := [], downloadResult := .ok (),
    createResult := .ok ("ig-1", "u1"), uploadTicks := [],
    uploadResult := .ok (), thumbDownload := .ok (), thumbUpload := .ok "t1" }

/-- The application state after starting an import whose pre-check request
was rejected (everything else succeeded). -/
def c2State : AppState :=
  startImport "c2i" "v2" defaultOptions c2Oracle initialState

/-- Counterexample to claim C2 as stated: the duplicate pre-check request is
rejected, yet the item does NOT transition to `error` — the pipeline runs to
`polling` with no error message and a live poll timer; and a rejected
per-tick status poll changes nothing at all (in particular it does not put
the item in `error`). -/
theorem C2_counterexample :
    c2State.imports.map (fun item => (item.stage, item.errorMessage)) =
      [(.polling, none)] ∧
    liveCountFor "c2i" c2State = 1 ∧
    applyTick "c2i" .rejected c2State = c2State := by
  refine ⟨by decide, by decide, rfl⟩

/-! ### Timer accounting invariants -/

/-- Well-formedness of the timer bookkeeping alone: every live interval is
the one recorded for its import id, every recorded handle is live, live
handles are pairwise distinct, and all handles are below the fresh
counter. -/
structure TimerWF (s : AppState) : Prop where
  liveMap : ∀ p ∈ s.live, lookupTimer p.2 s.timerMap = some p.1
  mapLive : ∀ id t, lookupTimer id s.timerMap = some t → (t, id) ∈ s.live
  fstNodup : (s.live.map Prod.fst).Nodup
  bound : ∀ p ∈ s.live, p.1 < s.nextTimer

/-- Full invariant of reachable application states: timer bookkeeping is
well-formed, every live timer belongs to a current item, item ids are
unique, and every item satisfies the stage/field contracts (complete ⇒
progress 100 and no error message; an error message only in stage `error`;
terminal ⇒ no live timer). -/
structure TimerInv (s : AppState) extends TimerWF s : Prop where
  owners : ∀ p ∈ s.live, ∃ item ∈ s.imports, item.id = p.2
  idsNodup : (s.imports.map (·.id)).Nodup
  itemsOk : ∀ item ∈ s.imports,
    (item.stage = .complete → item.progress = 100 ∧ item.errorMessage = none) ∧
    (item.errorMessage ≠ none → item.stage = .error) ∧
    ((item.stage = .complete ∨ item.stage = .error) → ∀ p ∈ s.live, p.2 ≠ item.id)


/-- Looking up a deleted key yields nothing. -/
theorem lookupTimer_removeKey_self (id : String) (m : List (String × Nat)) :
    lookupTimer id (removeTimerKey id m) = none := by
  induction m with
  | nil => rfl
  | cons a rest ih =>
    rcases a with ⟨k, v⟩
    by_cases h : k = id
    · simpa [removeTimerKey, h] using ih
    · simpa [removeTimerKey, lookupTimer, h] using ih

/-- Deleting one key leaves other lookups unchanged. -/
theorem lookupTimer_removeKey_ne (id k : String) (m : List (String × Nat))
    (h : k ≠ id) :
    lookupTimer k (removeTimerKey id m) = lookupTimer k m := by
  have hs : id ≠ k := fun hh => h hh.symm
  induction m with
  | nil => rfl
  | cons a rest ih =>
    rcases a with ⟨j, v⟩
    by_cases hj : j = id
    · simpa [removeTimerKey, lookupTimer, hj, hs] using ih
    · by_cases hk : j = k
      · simp [removeTimerKey, lookupTimer, hj, hk, h]
      · simpa [removeTimerKey, lookupTimer, hj, hk] using ih

/-- Membership after clearing one interval handle. -/
theorem mem_clearIntervalIn {t : Nat} {live : List (Nat × String)}
    {p : Nat × String} :
    p ∈ clearIntervalIn t live ↔ p ∈ live ∧ p.1 ≠ t := by
  induction live with
  | nil => simp [clearIntervalIn]
  | cons a rest ih =>
    rcases a with ⟨u, k⟩
    by_cases hu : u = t
    · subst hu
      rw [show clearIntervalIn u ((u, k) :: rest) = clearIntervalIn u rest by
        simp [clearIntervalIn]]
      rw [ih]
      simp only [List.mem_cons]
      constructor
      · exact fun hh => ⟨Or.inr hh.1, hh.2⟩
      · rintro ⟨rfl | hm, hne⟩
        · exact absurd rfl hne
        · exact ⟨hm, hne⟩
    · rw [show clearIntervalIn t ((u, k) :: rest) =
          (u, k) :: clearIntervalIn t rest by simp [clearIntervalIn, hu]]
      simp only [List.mem_cons, ih]
      constructor
      · rintro (rfl | hh)
        · exact ⟨Or.inl rfl, hu⟩
        · exact ⟨Or.inr hh.1, hh.2⟩
      · rintro ⟨rfl | hm, hne⟩
        · exact Or.inl rfl
        · exact Or.inr ⟨hm, hne⟩

/-- Clearing a handle yields a sublist of the live handles. -/
theorem clearIntervalIn_sublist (t : Nat) (live : List (Nat × String)) :
    List.Sublist (clearIntervalIn t live) live := by
  induction live with
  | nil => simp [clearIntervalIn]
  | cons a rest ih =>
    rcases a with ⟨u, k⟩
    by_cases hu : u = t
    · rw [clearIntervalIn, if_pos hu]
      exact ih.cons _
    · rw [clearIntervalIn, if_neg hu]
      exact ih.cons₂ _

/-- A handle list counts zero for an id iff it carries no entry for it. -/
theorem countHandles_eq_zero {id : String} {l : List (Nat × String)} :
    countHandles id l = 0 ↔ ∀ p ∈ l, p.2 ≠ id := by
  induction l with
  | nil => simp [countHandles]
  | cons a rest ih =>
    rcases a with ⟨u, k⟩
    by_cases hk : k = id
    · simp [countHandles, hk]
    · simp [countHandles, hk, ih]

/-- Clearing a handle carried by no `pid` entry leaves the `pid` count
unchanged. -/
theorem countHandles_clearInterval {t : Nat} {live : List (Nat × String)}
    {pid : String} (h : ∀ p ∈ live, p.2 = pid → p.1 ≠ t) :
    countHandles pid (clearIntervalIn t live) = countHandles pid live := by
  induction live with
  | nil => rfl
  | cons a rest ih =>
    rcases a with ⟨u, k⟩
    have ht : ∀ p ∈ rest, p.2 = pid → p.1 ≠ t :=
      fun p hp => h p (List.mem_cons_of_mem _ hp)
    by_cases hu : u = t
    · have hk : k ≠ pid := by
        intro hk
        exact h (u, k) (List.mem_cons_self _ _) hk hu
      simp [clearIntervalIn, if_pos hu, countHandles, hk, ih ht]
    · simp [clearIntervalIn, if_neg hu, countHandles, ih ht]

/-- The generic at-most-one argument: if every `id` entry's handle is the
unique recorded one and handles are pairwise distinct, the count is at most
one. -/
theorem countHandles_le_one_of {live : List (Nat × String)}
    {m : List (String × Nat)} {id : String}
    (hlm : ∀ p ∈ live, p.2 = id → lookupTimer id m = some p.1)
    (hnd : (live.map Prod.fst).Nodup) :
    countHandles id live ≤ 1 := by
  induction live with
  | nil => simp [countHandles]
  | cons a rest ih =>
    rcases a with ⟨u, k⟩
    rw [List.map_cons, List.nodup_cons] at hnd
    by_cases hk : k = id
    · have hrest : countHandles id rest = 0 := by
        rw [countHandles_eq_zero]
        intro p hp hpid
        have h1 := hlm (u, k) (List.mem_cons_self _ _) hk
        have h2 := hlm p (List.mem_cons_of_mem _ hp) hpid
        have hpu : p.1 = u := by
          rw [h1] at h2
          exact ((Option.some.injEq _ _).mp h2).symm
        have hmm : p.1 ∈ rest.map Prod.fst := List.mem_map_of_mem Prod.fst hp
        rw [hpu] at hmm
        exact hnd.1 hmm
      simp [countHandles, hk, hrest]
    · simp only [countHandles, if_neg hk, Nat.zero_add]
      exact ih (fun p hp => hlm p (List.mem_cons_of_mem _ hp)) hnd.2

/-- In a well-formed state at most one live timer exists per import id. -/
theorem liveCount_le_one {s : AppState} (hs : TimerWF s) (id : String) :
    liveCountFor id s ≤ 1 := by
  unfold liveCountFor
  refine countHandles_le_one_of (m := s.timerMap) ?_ hs.fstNodup
  intro p hp hpid
  have := hs.liveMap p hp
  rw [hpid] at this
  exact this

/-- In a well-formed state no live entry under `id` survives the
cancel-before-replace step of registration, so registration always leaves
exactly one live timer for the registered id. -/
theorem pollRegister_count {s : AppState} (hs : TimerWF s) (id : String) :
    liveCountFor id (pollVideoStatus id s) = 1 := by
  unfold liveCountFor pollVideoStatus
  rcases hl : lookupTimer id s.timerMap with _ | t
  · simp only [countHandles, if_pos rfl]
    have hz : countHandles id s.live = 0 := by
      rw [countHandles_eq_zero]
      intro p hp hpid
      have := hs.liveMap p hp
      rw [hpid, hl] at this
      exact Option.noConfusion this
    simp [hz]
  · simp only [countHandles, if_pos rfl]
    have hz : countHandles id (clearIntervalIn t s.live) = 0 := by
      rw [countHandles_eq_zero]
      intro p hp hpid
      have hmem := mem_clearIntervalIn.mp hp
      have := hs.liveMap p hmem.1
      rw [hpid, hl] at this
      exact hmem.2 ((Option.some.injEq _ _).mp this).symm
    simp [hz]

/-- Registration for one id changes no other id's live-timer count: in a
well-formed state the cancel-before-replace step cannot cancel another id's
interval. -/
theorem pollRegister_count_ne {s : AppState} (hs : TimerWF s)
    {qid pid : String} (h : pid ≠ qid) :
    liveCountFor pid (pollVideoStatus qid s) = liveCountFor pid s := by
  have hne : ¬ qid = pid := fun hh => h hh.symm
  unfold liveCountFor pollVideoStatus
  rcases hl : lookupTimer qid s.timerMap with _ | t
  · simp [countHandles, hne]
  · have hnohit : ∀ p ∈ s.live, p.2 = pid → p.1 ≠ t := by
      intro p hp h2 h1
      have hqmem : (t, qid) ∈ s.live := hs.mapLive qid t hl
      have hpeq : p = (t, pid) := by
        rcases p with ⟨a, b⟩
        simp only at h1 h2
        rw [h1, h2]
      rw [hpeq] at hp
      have := List.inj_on_of_nodup_map hs.fstNodup hp hqmem rfl
      exact h ((Prod.mk.injEq _ _ _ _).mp this).2
    simp [countHandles, hne, countHandles_clearInterval hnohit]

/-- Shape of the live list after registration: a fresh head for the
registered id on top of the old entries with that id's interval (if any)
cancelled; in a well-formed state no old entry under the id survives and
every other entry does. -/
theorem pollRegister_live_shape {s : AppState} (hs : TimerWF s) (id : String) :
    ∃ live1, (pollVideoStatus id s).live = (s.nextTimer, id) :: live1 ∧
      List.Sublist live1 s.live ∧ (∀ p ∈ live1, p.2 ≠ id) ∧
      (∀ p ∈ s.live, p.2 ≠ id → p ∈ live1) := by
  rcases hl : lookupTimer id s.timerMap with _ | t
  · refine ⟨s.live, ?_, List.Sublist.refl _, ?_, fun p hp _ => hp⟩
    · simp [pollVideoStatus, hl]
    · intro p hp hpid
      have := hs.liveMap p hp
      rw [hpid, hl] at this
      exact Option.noConfusion this
  · refine ⟨clearIntervalIn t s.live, ?_, clearIntervalIn_sublist t s.live,
      ?_, ?_⟩
    · simp [pollVideoStatus, hl]
    · intro p hp hpid
      have hm := mem_clearIntervalIn.mp hp
      have := hs.liveMap p hm.1
      rw [hpid, hl] at this
      exact hm.2 ((Option.some.injEq _ _).mp this).symm
    · intro p hp hpid
      refine mem_clearIntervalIn.mpr ⟨hp, ?_⟩
      intro h1
      have hqmem : (t, id) ∈ s.live := hs.mapLive id t hl
      have hpeq : p = (t, p.2) := by
        rcases p with ⟨a, b⟩
        simp only at h1
        rw [h1]
      rw [hpeq] at hp
      have := List.inj_on_of_nodup_map hs.fstNodup hp hqmem rfl
      exact hpid ((Prod.mk.injEq _ _ _ _).mp this).2

/-- Registration preserves timer well-formedness. -/
theorem pollRegister_wf {s : AppState} (hs : TimerWF s) (id : String) :
    TimerWF (pollVideoStatus id s) := by
  obtain ⟨live1, hlive, hsub, hnid, hkeep⟩ := pollRegister_live_shape hs id
  have hmap : (pollVideoStatus id s).timerMap =
      (id, s.nextTimer) :: removeTimerKey id s.timerMap := rfl
  have hnext : (pollVideoStatus id s).nextTimer = s.nextTimer + 1 := rfl
  constructor
  · intro p hp
    rw [hlive] at hp
    rw [hmap]
    rcases List.mem_cons.mp hp with rfl | hp'
    · simp [lookupTimer]
    · have h2 : p.2 ≠ id := hnid p hp'
      have hold := hs.liveMap p (hsub.subset hp')
      have hhead : ¬ id = p.2 := fun hh => h2 hh.symm
      rw [lookupTimer, if_neg hhead, lookupTimer_removeKey_ne id p.2 _ h2]
      exact hold
  · intro k t' hk
    rw [hmap] at hk
    rw [hlive]
    by_cases hkid : k = id
    · subst hkid
      have ht' : s.nextTimer = t' := by simpa [lookupTimer] using hk
      rw [← ht']
      exact List.mem_cons_self _ _
    · have hhead : ¬ id = k := fun hh => hkid hh.symm
      rw [lookupTimer, if_neg hhead, lookupTimer_removeKey_ne id k _ hkid] at hk
      have hmem := hs.mapLive k t' hk
      exact List.mem_cons_of_mem _ (hkeep (t', k) hmem hkid)
  · rw [hlive, List.map_cons, List.nodup_cons]
    constructor
    · intro hmm
      obtain ⟨p, hp, hfst⟩ := List.mem_map.mp hmm
      have := hs.bound p (hsub.subset hp)
      rw [hfst] at this
      exact lt_irrefl _ this
    · exact hs.fstNodup.sublist (hsub.map Prod.fst)
  · intro p hp
    rw [hlive] at hp
    rw [hnext]
    rcases List.mem_cons.mp hp with rfl | hp'
    · exact Nat.lt_succ_self _
    · exact Nat.lt_succ_of_lt (hs.bound p (hsub.subset hp'))

/-- The unconditional timer clear of the poll callback: preserves timer
well-formedness, leaves no live entry under the cleared id, and keeps every
other entry. -/
theorem clearTimerUncond_wf {s : AppState} (hs : TimerWF s) (id : String) :
    TimerWF (clearTimerUncond id s) ∧
    (∀ p ∈ (clearTimerUncond id s).live, p.2 ≠ id) ∧
    (∀ p ∈ (clearTimerUncond id s).live, p ∈ s.live) ∧
    (∀ p ∈ s.live, p.2 ≠ id → p ∈ (clearTimerUncond id s).live) := by
  have hmap : (clearTimerUncond id s).timerMap = removeTimerKey id s.timerMap :=
    rfl
  have hnext : (clearTimerUncond id s).nextTimer = s.nextTimer := rfl
  rcases hl : lookupTimer id s.timerMap with _ | t
  · have hlive : (clearTimerUncond id s).live = s.live := by
      simp [clearTimerUncond, hl]
    have hnid : ∀ p ∈ (clearTimerUncond id s).live, p.2 ≠ id := by
      rw [hlive]
      intro p hp hpid
      have := hs.liveMap p hp
      rw [hpid, hl] at this
      exact Option.noConfusion this
    refine ⟨?_, hnid, by rw [hlive]; exact fun p hp => hp,
      by rw [hlive]; exact fun p hp _ => hp⟩
    constructor
    · intro p hp
      have h2 := hnid p hp
      rw [hlive] at hp
      rw [hmap, lookupTimer_removeKey_ne id p.2 _ h2]
      exact hs.liveMap p hp
    · intro k t' hk
      rw [hmap] at hk
      by_cases hkid : k = id
      · subst hkid
        rw [lookupTimer_removeKey_self] at hk
        exact Option.noConfusion hk
      · rw [lookupTimer_removeKey_ne id k _ hkid] at hk
        rw [hlive]
        exact hs.mapLive k t' hk
    · rw [hlive]
      exact hs.fstNodup
    · rw [hlive, hnext]
      exact hs.bound
  · have hlive : (clearTimerUncond id s).live = clearIntervalIn t s.live := by
      simp [clearTimerUncond, hl]
    have hnid : ∀ p ∈ (clearTimerUncond id s).live, p.2 ≠ id := by
      rw [hlive]
      intro p hp hpid
      have hm := mem_clearIntervalIn.mp hp
      have := hs.liveMap p hm.1
      rw [hpid, hl] at this
      exact hm.2 ((Option.some.injEq _ _).mp this).symm
    have hsubl : List.Sublist (clearTimerUncond id s).live s.live := by
      rw [hlive]
      exact clearIntervalIn_sublist t s.live
    have hkeep : ∀ p ∈ s.live, p.2 ≠ id → p ∈ (clearTimerUncond id s).live := by
      rw [hlive]
      intro p hp hpid
      refine mem_clearIntervalIn.mpr ⟨hp, ?_⟩
      intro h1
      have hqmem : (t, id) ∈ s.live := hs.mapLive id t hl
      have hpeq : p = (t, p.2) := by
        rcases p with ⟨a, b⟩
        simp only at h1
        rw [h1]
      rw [hpeq] at hp
      have := List.inj_on_of_nodup_map hs.fstNodup hp hqmem rfl
      exact hpid ((Prod.mk.injEq _ _ _ _).mp this).2
    refine ⟨?_, hnid, fun p hp => hsubl.subset hp, hkeep⟩
    constructor
    · intro p hp
      have h2 := hnid p hp
      rw [hmap, lookupTimer_removeKey_ne id p.2 _ h2]
      exact hs.liveMap p (hsubl.subset hp)
    · intro k t' hk
      rw [hmap] at hk
      by_cases hkid : k = id
      · subst hkid
        rw [lookupTimer_removeKey_self] at hk
        exact Option.noConfusion hk
      · rw [lookupTimer_removeKey_ne id k _ hkid] at hk
        exact hkeep (t', k) (hs.mapLive k t' hk) hkid
    · exact hs.fstNodup.sublist (hsubl.map Prod.fst)
    · rw [hnext]
      intro p hp
      exact hs.bound p (hsubl.subset hp)

/-- The conditional timer clear has the same effect as the unconditional
one in any state (deleting an absent map key is a no-op). -/
theorem clearTimerCond_wf {s : AppState} (hs : TimerWF s) (id : String) :
    TimerWF (clearTimerCond id s) ∧
    (∀ p ∈ (clearTimerCond id s).live, p.2 ≠ id) ∧
    (∀ p ∈ (clearTimerCond id s).live, p ∈ s.live) ∧
    (∀ p ∈ s.live, p.2 ≠ id → p ∈ (clearTimerCond id s).live) := by
  rcases hl : lookupTimer id s.timerMap with _ | t
  · have heq : clearTimerCond id s = s := by
      simp [clearTimerCond, hl]
    rw [heq]
    refine ⟨hs, ?_, fun p hp => hp, fun p hp _ => hp⟩
    intro p hp hpid
    have := hs.liveMap p hp
    rw [hpid, hl] at this
    exact Option.noConfusion this
  · have heq : clearTimerCond id s = clearTimerUncond id s := by
      simp [clearTimerCond, clearTimerUncond, hl]
    rw [heq]
    exact clearTimerUncond_wf hs id

/-- `clearTimerCond`, `clearTimerUncond` and `pollVideoStatus` do not touch
the imports list; `clearTimerCond` on an id with no recorded timer is a
no-op. -/
theorem timerOps_imports (id : String) (s : AppState) :
    (clearTimerCond id s).imports = s.imports ∧
    (clearTimerUncond id s).imports = s.imports ∧
    (pollVideoStatus id s).imports = s.imports := by
  refine ⟨?_, rfl, rfl⟩
  unfold clearTimerCond
  rcases lookupTimer id s.timerMap with _ | t <;> rfl

/-- Patching never changes an item's id. -/
theorem applyPatch_id (p : ItemPatch) (item : ImportItem) :
    (applyPatch p item).id = item.id := rfl

/-- `updateImport` with an id-preserving updater preserves the id list. -/
theorem updateImport_map_id (id : String) (f : ImportItem → ImportItem)
    (items : List ImportItem) (hf : ∀ x, (f x).id = x.id) :
    (updateImport id f items).map (·.id) = items.map (·.id) := by
  unfold updateImport
  rw [List.map_map]
  apply List.map_congr_left
  intro x hx
  by_cases h : x.id = id <;> simp [h, hf]

/-- Membership in an updated imports list. -/
theorem mem_updateImport {id : String} {f : ImportItem → ImportItem}
    {items : List ImportItem} {x : ImportItem} :
    x ∈ updateImport id f items ↔
      ∃ y ∈ items, x = if y.id = id then f y else y := by
  unfold updateImport
  rw [List.mem_map]
  constructor
  · rintro ⟨y, hy, rfl⟩
    exact ⟨y, hy, rfl⟩
  · rintro ⟨y, hy, rfl⟩
    exact ⟨y, hy, rfl⟩

/-- A benign trace event: an `updateImport` patch that assigns neither a
terminal stage nor an error message.  All patches of the try block before
its final outcome are benign. -/
def benignEvent : RunEvent → Prop
  | .patch p =>
    p.stage ≠ some .complete ∧ p.stage ≠ some .error ∧ p.errorMessage = none
  | _ => False

/-- All named patch events of the pipeline are benign. -/
theorem benign_named :
    benignEvent checkingEvent ∧ benignEvent fetchingEvent ∧
    (∀ vd, benignEvent (vimeoDataEvent vd)) ∧
    (∀ n, benignEvent (downloadingEvent n)) ∧
    (∀ n, benignEvent (downloadTickEvent n)) ∧
    benignEvent creatingEvent ∧
    (∀ v, benignEvent (createdEvent v)) ∧
    benignEvent uploadingEvent ∧
    (∀ n, benignEvent (uploadTickEvent n)) ∧
    benignEvent thumbStageEvent ∧
    (∀ u, benignEvent (thumbDoneEvent u)) ∧
    (∀ tu, benignEvent (pollingEvent tu)) := by
  refine ⟨?_, ?_, ?_, ?_, ?_, ?_, ?_, ?_, ?_, ?_, ?_, ?_⟩ <;>
    simp [benignEvent, checkingEvent, fetchingEvent, vimeoDataEvent,
      downloadingEvent, downloadTickEvent, creatingEvent, createdEvent,
      uploadingEvent, uploadTickEvent, thumbStageEvent, thumbDoneEvent,
      pollingEvent]

/-- Every event the thumbnail phase emits is benign. -/
theorem thumbnailPhase_benign (o : ImportOracle) (vd : VimeoVideoData) :
    ∀ ev ∈ (thumbnailPhase o vd).1, benignEvent ev := by
  have hTS : benignEvent thumbStageEvent := benign_named.2.2.2.2.2.2.2.2.2.1
  have hTD : ∀ u, benignEvent (thumbDoneEvent u) :=
    benign_named.2.2.2.2.2.2.2.2.2.2.1
  intro ev hev
  unfold thumbnailPhase at hev
  repeat' split at hev
  all_goals simp only [List.mem_cons, List.not_mem_nil, or_false] at hev
  all_goals first
    | (subst hev; exact hTS)
    | (rcases hev with rfl | rfl; exacts [hTS, hTD _])

/-- Every event of a list is benign or a poll registration. -/
def eventsOK (l : List RunEvent) : Prop :=
  ∀ ev ∈ l, benignEvent ev ∨ ∃ ivid, ev = RunEvent.registerPoll ivid

/-- Every event of a list is benign. -/
def benignAll (l : List RunEvent) : Prop := ∀ ev ∈ l, benignEvent ev

theorem eventsOK_nil : eventsOK [] := by
  intro ev hev
  simp at hev

theorem eventsOK_cons {ev0 : RunEvent} {l : List RunEvent}
    (h0 : benignEvent ev0 ∨ ∃ ivid, ev0 = RunEvent.registerPoll ivid)
    (hl : eventsOK l) : eventsOK (ev0 :: l) := by
  intro ev hev
  rcases List.mem_cons.mp hev with rfl | hm
  · exact h0
  · exact hl ev hm

theorem eventsOK_append {l1 l2 : List RunEvent} (h1 : eventsOK l1)
    (h2 : eventsOK l2) : eventsOK (l1 ++ l2) := by
  intro ev hev
  rcases List.mem_append.mp hev with hm | hm
  · exact h1 ev hm
  · exact h2 ev hm

theorem eventsOK_map_dl (l : List Nat) : eventsOK (l.map downloadTickEvent) := by
  intro ev hev
  obtain ⟨n, _, rfl⟩ := List.mem_map.mp hev
  exact Or.inl (benign_named.2.2.2.2.1 n)

theorem eventsOK_map_up (l : List Nat) : eventsOK (l.map uploadTickEvent) := by
  intro ev hev
  obtain ⟨n, _, rfl⟩ := List.mem_map.mp hev
  exact Or.inl (benign_named.2.2.2.2.2.2.2.2.1 n)

theorem eventsOK_thumb (o : ImportOracle) (vd : VimeoVideoData) :
    eventsOK (thumbnailPhase o vd).1 :=
  fun ev hev => Or.inl (thumbnailPhase_benign o vd ev hev)

theorem benignAll_nil : benignAll [] := by
  intro ev hev
  simp at hev

theorem benignAll_cons {ev0 : RunEvent} {l : List RunEvent}
    (h0 : benignEvent ev0) (hl : benignAll l) : benignAll (ev0 :: l) := by
  intro ev hev
  rcases List.mem_cons.mp hev with rfl | hm
  · exact h0
  · exact hl ev hm

theorem benignAll_append {l1 l2 : List RunEvent} (h1 : benignAll l1)
    (h2 : benignAll l2) : benignAll (l1 ++ l2) := by
  intro ev hev
  rcases List.mem_append.mp hev with hm | hm
  · exact h1 ev hm
  · exact h2 ev hm

theorem benignAll_map_dl (l : List Nat) : benignAll (l.map downloadTickEvent) := by
  intro ev hev
  obtain ⟨n, _, rfl⟩ := List.mem_map.mp hev
  exact benign_named.2.2.2.2.1 n

theorem benignAll_map_up (l : List Nat) : benignAll (l.map uploadTickEvent) := by
  intro ev hev
  obtain ⟨n, _, rfl⟩ := List.mem_map.mp hev
  exact benign_named.2.2.2.2.2.2.2.2.1 n

/-- Every event of the try block is benign or a poll registration. -/
theorem runImportTry_eventsOK (o : ImportOracle) (vid : String) :
    eventsOK (runImportTry o vid).1 := by
  unfold runImportTry
  dsimp only
  repeat' split
  all_goals dsimp only
  all_goals
    repeat'
      first
      | exact Or.inl benign_named.1
      | exact Or.inl benign_named.2.1
      | exact Or.inl (benign_named.2.2.1 _)
      | exact Or.inl (benign_named.2.2.2.1 _)
      | exact Or.inl benign_named.2.2.2.2.2.1
      | exact Or.inl (benign_named.2.2.2.2.2.2.1 _)
      | exact Or.inl benign_named.2.2.2.2.2.2.2.1
      | exact Or.inl benign_named.2.2.2.2.2.2.2.2.2.1
      | exact Or.inl (benign_named.2.2.2.2.2.2.2.2.2.2.1 _)
      | exact Or.inl (benign_named.2.2.2.2.2.2.2.2.2.2.2 _)
      | exact Or.inr ⟨_, rfl⟩
      | exact eventsOK_nil
      | exact eventsOK_map_dl _
      | exact eventsOK_map_up _
      | exact eventsOK_thumb _ _
      | apply eventsOK_append
      | apply eventsOK_cons

/-- When the try block throws, all its emitted events are benign patches
(the registration is never reached). -/
theorem runImportTry_thrown_benign (o : ImportOracle) (vid : String) :
    ∀ evs e, runImportTry o vid = (evs, some e) → benignAll evs := by
  unfold runImportTry
  dsimp only
  repeat' split
  all_goals intro evs e heq
  all_goals rw [Prod.mk.injEq] at heq
  all_goals try exact Option.noConfusion heq.2
  all_goals rw [← heq.1]
  all_goals
    repeat'
      first
      | exact benign_named.1
      | exact benign_named.2.1
      | exact benign_named.2.2.1 _
      | exact benign_named.2.2.2.1 _
      | exact benign_named.2.2.2.2.2.1
      | exact benign_named.2.2.2.2.2.2.1 _
      | exact benign_named.2.2.2.2.2.2.2.1
      | exact benignAll_nil
      | exact benignAll_map_dl _
      | exact benignAll_map_up _
      | apply benignAll_append
      | apply benignAll_cons

/-- Items with equal ids in a state with unique ids are equal. -/
theorem TimerInv.sameId {s : AppState} (hs : TimerInv s) {a b : ImportItem}
    (ha : a ∈ s.imports) (hb : b ∈ s.imports) (hid : a.id = b.id) : a = b :=
  List.inj_on_of_nodup_map hs.idsNodup ha hb hid

/-- Composing two same-id updates (the inner one id-preserving). -/
theorem updateImport_comp (id : String) (f g : ImportItem → ImportItem)
    (items : List ImportItem) (hf : ∀ x, (f x).id = x.id) :
    updateImport id g (updateImport id f items) =
      updateImport id (fun x => g (f x)) items := by
  unfold updateImport
  rw [List.map_map]
  apply List.map_congr_left
  intro x _
  by_cases h : x.id = id
  · simp [h, hf]
  · simp [h]

/-- A clear with no recorded timer is a no-op. -/
theorem clearTimerCond_of_none {id : String} {s : AppState}
    (h : lookupTimer id s.timerMap = none) : clearTimerCond id s = s := by
  simp [clearTimerCond, h]

/-- Generic preservation of the full invariant under an `updateImport` whose
updater keeps ids and keeps the per-item contract on the touched items. -/
theorem updateImport_inv {s : AppState} (hs : TimerInv s) (id : String)
    (f : ImportItem → ImportItem) (hid : ∀ x, (f x).id = x.id)
    (hok : ∀ x ∈ s.imports, x.id = id →
      ((f x).stage = .complete → (f x).progress = 100 ∧ (f x).errorMessage = none) ∧
      ((f x).errorMessage ≠ none → (f x).stage = .error) ∧
      (((f x).stage = .complete ∨ (f x).stage = .error) →
        ∀ p ∈ s.live, p.2 ≠ x.id)) :
    TimerInv { s with imports := updateImport id f s.imports } := by
  refine ⟨⟨hs.liveMap, hs.mapLive, hs.fstNodup, hs.bound⟩, ?_, ?_, ?_⟩
  · intro p hp
    obtain ⟨item, hitem, hpid⟩ := hs.owners p hp
    refine ⟨if item.id = id then f item else item, ?_, ?_⟩
    · exact List.mem_map_of_mem _ hitem
    · by_cases h : item.id = id
      · rw [if_pos h, hid]
        exact hpid
      · rw [if_neg h]
        exact hpid
  · exact (updateImport_map_id id f s.imports hid) ▸ hs.idsNodup
  · intro x hx
    obtain ⟨y, hy, rfl⟩ := mem_updateImport.mp hx
    by_cases h : y.id = id
    · rw [if_pos h]
      have := hok y hy h
      refine ⟨this.1, this.2.1, ?_⟩
      intro hterm p hp
      rw [hid]
      exact this.2.2 hterm p hp
    · rw [if_neg h]
      exact hs.itemsOk y hy

/-- Invariant maintained while a fresh item's pipeline is running: the full
state invariant, every item under the pipeline's id is non-terminal with no
error message, and such an item exists. -/
def Mid2 (id : String) (s : AppState) : Prop :=
  TimerInv s ∧
  (∀ item ∈ s.imports, item.id = id →
    item.errorMessage = none ∧ item.stage ≠ .complete ∧ item.stage ≠ .error) ∧
  (∃ item ∈ s.imports, item.id = id)

/-- `Mid2` plus: no live timer is registered under the pipeline's id. -/
def Mid3 (id : String) (s : AppState) : Prop :=
  Mid2 id s ∧ ∀ p ∈ s.live, p.2 ≠ id

/-- A benign patch preserves the mid-run invariant. -/
theorem benignPatch_mid2 {id : String} {s : AppState} {p : ItemPatch}
    (hm : Mid2 id s) (hb : benignEvent (.patch p)) :
    Mid2 id (applyRunEvent id s (.patch p)) := by
  obtain ⟨hs, hfacts, hex⟩ := hm
  obtain ⟨hbc, hbe, hbm⟩ := hb
  have hnew : ∀ y ∈ s.imports, y.id = id →
      (applyPatch p y).errorMessage = none ∧
      (applyPatch p y).stage ≠ .complete ∧ (applyPatch p y).stage ≠ .error := by
    intro y hy hyid
    obtain ⟨he, hc, her⟩ := hfacts y hy hyid
    refine ⟨?_, ?_, ?_⟩
    · show p.errorMessage.getD y.errorMessage = none
      rw [hbm, Option.getD_none, he]
    · show p.stage.getD y.stage ≠ .complete
      rcases hst : p.stage with _ | st
      · simpa using hc
      · rw [hst] at hbc
        simpa using fun hh => hbc (by rw [hh])
    · show p.stage.getD y.stage ≠ .error
      rcases hst : p.stage with _ | st
      · simpa using her
      · rw [hst] at hbe
        simpa using fun hh => hbe (by rw [hh])
  refine ⟨?_, ?_, ?_⟩
  · refine updateImport_inv hs id (applyPatch p) (applyPatch_id p) ?_
    intro x hx hxid
    obtain ⟨he, hc, her⟩ := hnew x hx hxid
    refine ⟨fun hh => absurd hh hc, fun hh => absurd he hh, ?_⟩
    intro hh
    rcases hh with hh | hh
    · exact absurd hh hc
    · exact absurd hh her
  · intro item hitem hid
    obtain ⟨y, hy, rfl⟩ := mem_updateImport.mp hitem
    by_cases h : y.id = id
    · rw [if_pos h]
      exact hnew y hy h
    · rw [if_neg h] at hid ⊢
      exact absurd hid h
  · obtain ⟨w, hw, hwid⟩ := hex
    refine ⟨if w.id = id then applyPatch p w else w, List.mem_map_of_mem _ hw, ?_⟩
    by_cases h : w.id = id <;> simp [h, applyPatch_id, hwid]

/-- A poll registration mid-pipeline preserves the mid-run invariant. -/
theorem registerPoll_mid2 {id : String} {s : AppState} (hm : Mid2 id s)
    (v : String) : Mid2 id (applyRunEvent id s (.registerPoll v)) := by
  obtain ⟨hs, hfacts, hex⟩ := hm
  show Mid2 id (pollVideoStatus id s)
  have hwf := pollRegister_wf hs.toTimerWF id
  obtain ⟨live1, hlive, hsub, _, _⟩ := pollRegister_live_shape hs.toTimerWF id
  have himp : (pollVideoStatus id s).imports = s.imports := rfl
  refine ⟨⟨hwf, ?_, ?_, ?_⟩, ?_, ?_⟩
  · intro p hp
    rw [himp]
    rw [hlive] at hp
    rcases List.mem_cons.mp hp with rfl | hp'
    · exact hex
    · exact hs.owners p (hsub.subset hp')
  · rw [himp]
    exact hs.idsNodup
  · intro item hitem
    rw [himp] at hitem
    have hold := hs.itemsOk item hitem
    refine ⟨hold.1, hold.2.1, ?_⟩
    intro hterm p hp
    rw [hlive] at hp
    rcases List.mem_cons.mp hp with rfl | hp'
    · intro hh
      obtain ⟨he, hc, her⟩ := hfacts item hitem hh.symm
      rcases hterm with ht | ht
      · exact hc ht
      · exact her ht
    · exact hold.2.2 hterm p (hsub.subset hp')
  · intro item hitem hid
    rw [himp] at hitem
    exact hfacts item hitem hid
  · rw [himp]
    exact hex

/-- A fold of benign-or-registration events preserves the mid-run
invariant. -/
theorem eventsOK_fold_mid2 {id : String} (evs : List RunEvent) (s : AppState)
    (hm : Mid2 id s) (hok : eventsOK evs) :
    Mid2 id (applyRunEvents id evs s) := by
  induction evs generalizing s with
  | nil => exact hm
  | cons ev rest ih =>
    have hstep : Mid2 id (applyRunEvent id s ev) := by
      rcases hok ev (List.mem_cons_self _ _) with hb | ⟨ivid, rfl⟩
      · cases ev with
        | patch p => exact benignPatch_mid2 hm hb
        | registerPoll v => exact hb.elim
        | clearPoll => exact hb.elim
      · exact registerPoll_mid2 hm ivid
    exact ih (applyRunEvent id s ev) hstep
      (fun e he => hok e (List.mem_cons_of_mem _ he))

/-- A fold of purely benign events preserves the mid-run invariant with an
id-free live list. -/
theorem benignAll_fold_mid3 {id : String} (evs : List RunEvent) (s : AppState)
    (hm : Mid3 id s) (hb : benignAll evs) :
    Mid3 id (applyRunEvents id evs s) := by
  induction evs generalizing s with
  | nil => exact hm
  | cons ev rest ih =>
    have hbe := hb ev (List.mem_cons_self _ _)
    have hstep : Mid3 id (applyRunEvent id s ev) := by
      cases ev with
      | patch p => exact ⟨benignPatch_mid2 hm.1 hbe, hm.2⟩
      | registerPoll v => exact hbe.elim
      | clearPoll => exact hbe.elim
    exact ih (applyRunEvent id s ev) hstep
      (fun e he => hb e (List.mem_cons_of_mem _ he))

/-- The catch block (error patch, then conditional timer clear) restores
the full invariant from the mid-run invariant. -/
theorem errEnd_inv {id : String} {s : AppState} (hm : Mid3 id s)
    (e : ReqError) :
    TimerInv (applyRunEvents id [.patch (errPatch e), .clearPoll] s) := by
  obtain ⟨⟨hs, hfacts, hex⟩, hnolive⟩ := hm
  have hinv1 : TimerInv (applyRunEvent id s (.patch (errPatch e))) := by
    refine updateImport_inv hs id (applyPatch (errPatch e))
      (applyPatch_id (errPatch e)) ?_
    intro x hx hxid
    refine ⟨?_, fun _ => rfl, ?_⟩
    · intro hh
      exact absurd hh (by simp [applyPatch, errPatch])
    · intro _ p hp
      rw [hxid]
      exact hnolive p hp
  have hmap : (applyRunEvent id s (.patch (errPatch e))).timerMap = s.timerMap :=
    rfl
  have hnone : lookupTimer id
      (applyRunEvent id s (.patch (errPatch e))).timerMap = none := by
    rw [hmap]
    rcases hl : lookupTimer id s.timerMap with _ | t
    · rfl
    · exact absurd rfl (hnolive (t, id) (hs.mapLive id t hl))
  show TimerInv (applyRunEvent id (applyRunEvent id s (.patch (errPatch e)))
    .clearPoll)
  have : applyRunEvent id (applyRunEvent id s (.patch (errPatch e)))
      .clearPoll = applyRunEvent id s (.patch (errPatch e)) := by
    show clearTimerCond id _ = _
    exact clearTimerCond_of_none hnone
  rw [this]
  exact hinv1

/-- Traces split along appends at the state level. -/
theorem applyRunEvents_append (id : String) (l1 l2 : List RunEvent)
    (s : AppState) :
    applyRunEvents id (l1 ++ l2) s =
      applyRunEvents id l2 (applyRunEvents id l1 s) := by
  simp [applyRunEvents, List.foldl_append]

/-- The `start` step (fresh item plus its whole pipeline) preserves the
invariant. -/
theorem start_preserves {s : AppState} (id vimeoId : String)
    (options : ImportOptions) (o : ImportOracle)
    (hfresh : ∀ item ∈ s.imports, item.id ≠ id) (hs : TimerInv s) :
    TimerInv (startImport id vimeoId options o s) := by
  have hmid : Mid3 id { s with imports := mkImportItem id vimeoId options :: s.imports } := by
    have hnolive : ∀ p ∈ s.live, p.2 ≠ id := by
      intro p hp hpid
      obtain ⟨item, hitem, hiid⟩ := hs.owners p hp
      exact hfresh item hitem (by rw [hiid, hpid])
    refine ⟨⟨⟨⟨hs.liveMap, hs.mapLive, hs.fstNodup, hs.bound⟩, ?_, ?_, ?_⟩,
      ?_, ?_⟩, hnolive⟩
    · intro p hp
      obtain ⟨item, hitem, hiid⟩ := hs.owners p hp
      exact ⟨item, List.mem_cons_of_mem _ hitem, hiid⟩
    · rw [List.map_cons, List.nodup_cons]
      refine ⟨?_, hs.idsNodup⟩
      intro hmm
      obtain ⟨y, hy, hyid⟩ := List.mem_map.mp hmm
      exact hfresh y hy hyid
    · intro item hitem
      rcases List.mem_cons.mp hitem with rfl | hold
      · refine ⟨?_, ?_, ?_⟩
        · intro hh
          exact absurd hh (by simp [mkImportItem])
        · intro hh
          exact absurd rfl hh
        · intro hh
          exact absurd hh (by simp [mkImportItem])
      · exact hs.itemsOk item hold
    · intro item hitem hiid
      rcases List.mem_cons.mp hitem with rfl | hold
      · refine ⟨rfl, ?_, ?_⟩ <;> simp [mkImportItem]
      · exact absurd hiid (hfresh item hold)
    · exact ⟨mkImportItem id vimeoId options, List.mem_cons_self _ _, rfl⟩
  unfold startImport runImport
  rcases hpair : runImportTry o vimeoId with ⟨evs, r⟩
  rcases r with _ | e
  · have hok : eventsOK evs := by
      have := runImportTry_eventsOK o vimeoId
      rw [hpair] at this
      exact this
    exact (eventsOK_fold_mid2 evs _ hmid.1 hok).1
  · have hb : benignAll evs := runImportTry_thrown_benign o vimeoId evs e hpair
    rw [applyRunEvents_append]
    exact errEnd_inv (benignAll_fold_mid3 evs _ hmid hb) e

/-- Registration preserves the full invariant when some current item under
the id is non-terminal. -/
theorem pollVideoStatus_inv {s : AppState} (hs : TimerInv s) {id : String}
    (hex : ∃ item ∈ s.imports,
      item.id = id ∧ item.stage ≠ .complete ∧ item.stage ≠ .error) :
    TimerInv (pollVideoStatus id s) := by
  obtain ⟨w, hw, hwid, hwc, hwe⟩ := hex
  have hwf := pollRegister_wf hs.toTimerWF id
  obtain ⟨live1, hlive, hsub, _, _⟩ := pollRegister_live_shape hs.toTimerWF id
  refine ⟨hwf, ?_, hs.idsNodup, ?_⟩
  · intro p hp
    rw [hlive] at hp
    rcases List.mem_cons.mp hp with rfl | hp'
    · exact ⟨w, hw, hwid⟩
    · exact hs.owners p (hsub.subset hp')
  · intro x hx
    have hold := hs.itemsOk x hx
    refine ⟨hold.1, hold.2.1, ?_⟩
    intro hterm p hp
    rw [hlive] at hp
    rcases List.mem_cons.mp hp with rfl | hp'
    · intro hh
      have hxw : x = w := hs.sameId hx hw (by rw [← hh, hwid])
      rw [hxw] at hterm
      rcases hterm with ht | ht
      · exact hwc ht
      · exact hwe ht
    · exact hold.2.2 hterm p (hsub.subset hp')

/-- Invariant preservation for the terminal branches of the poll callback:
two same-id updates whose composite satisfies the item contract, followed by
the unconditional timer clear. -/
theorem clearTerminal_inv {s : AppState} (hs : TimerInv s) (id : String)
    (k : ImportItem → ImportItem) (hkid : ∀ x, (k x).id = x.id)
    (hok : ∀ x ∈ s.imports, x.id = id →
      ((k x).stage = .complete → (k x).progress = 100 ∧ (k x).errorMessage = none) ∧
      ((k x).errorMessage ≠ none → (k x).stage = .error)) :
    TimerInv (clearTimerUncond id
      { s with imports := updateImport id k s.imports }) := by
  have hwf2 : TimerWF { s with imports := updateImport id k s.imports } :=
    ⟨hs.liveMap, hs.mapLive, hs.fstNodup, hs.bound⟩
  obtain ⟨hwf, hnid, hsubset, hkeep⟩ := clearTimerUncond_wf hwf2 id
  refine ⟨hwf, ?_, ?_, ?_⟩
  · intro p hp
    have hp' : p ∈ s.live := hsubset p hp
    obtain ⟨item, hitem, hiid⟩ := hs.owners p hp'
    refine ⟨if item.id = id then k item else item, List.mem_map_of_mem _ hitem, ?_⟩
    by_cases h : item.id = id
    · rw [if_pos h, hkid]
      exact hiid
    · rw [if_neg h]
      exact hiid
  · exact (updateImport_map_id id k s.imports hkid) ▸ hs.idsNodup
  · intro x hx
    obtain ⟨y, hy, rfl⟩ := mem_updateImport.mp hx
    by_cases h : y.id = id
    · rw [if_pos h]
      have hko := hok y hy h
      refine ⟨hko.1, hko.2, ?_⟩
      intro _ p hp
      rw [hkid, h]
      exact hnid p hp
    · rw [if_neg h]
      have hold := hs.itemsOk y hy
      refine ⟨hold.1, hold.2.1, ?_⟩
      intro hterm p hp
      exact hold.2.2 hterm p (hsubset p hp)

/-- Two-update form of `clearTerminal_inv`, matching the poll callback's
status-text update followed by the terminal update. -/
theorem clearTerminal2_inv {s : AppState} (hs : TimerInv s) (id : String)
    (f g : ImportItem → ImportItem) (hfid : ∀ x, (f x).id = x.id)
    (hgid : ∀ x, (g x).id = x.id)
    (hok : ∀ x ∈ s.imports, x.id = id →
      ((g (f x)).stage = .complete →
        (g (f x)).progress = 100 ∧ (g (f x)).errorMessage = none) ∧
      ((g (f x)).errorMessage ≠ none → (g (f x)).stage = .error)) :
    TimerInv (clearTimerUncond id
      { s with imports := updateImport id g (updateImport id f s.imports) }) := by
  rw [updateImport_comp id f g s.imports hfid]
  exact clearTerminal_inv hs id (fun x => g (f x))
    (fun x => by rw [hgid, hfid]) hok

/-- One poll tick preserves the invariant (the tick step requires a live
timer, hence its item is not terminal). -/
theorem tick_preserves {s : AppState} (id : String) (out : TickOutcome)
    (hlive : (lookupTimer id s.timerMap).isSome = true) (hs : TimerInv s) :
    TimerInv (applyTick id out s) := by
  cases out with
  | rejected => exact hs
  | status st =>
    obtain ⟨t, ht⟩ := Option.isSome_iff_exists.mp hlive
    have hmemlive : (t, id) ∈ s.live := hs.mapLive id t ht
    have hidfacts : ∀ item ∈ s.imports, item.id = id →
        item.errorMessage = none ∧ item.stage ≠ .complete ∧
          item.stage ≠ .error := by
      intro item hitem hid
      have hterm : ¬(item.stage = .complete ∨ item.stage = .error) := by
        intro hterm
        exact (hs.itemsOk item hitem).2.2 hterm (t, id) hmemlive hid.symm
      refine ⟨?_, fun hc => hterm (Or.inl hc), fun he => hterm (Or.inr he)⟩
      by_cases he : item.errorMessage = none
      · exact he
      · exact absurd (Or.inr ((hs.itemsOk item hitem).2.1 he)) hterm
    unfold applyTick
    dsimp only
    by_cases hdone : st ∈ doneStatuses
    · rw [if_pos hdone]
      refine clearTerminal2_inv hs id _ _ (fun x => rfl) (fun x => rfl) ?_
      intro x hx hxid
      refine ⟨fun _ => ⟨rfl, (hidfacts x hx hxid).1⟩, ?_⟩
      intro hne
      exact absurd (hidfacts x hx hxid).1 hne
    · rw [if_neg hdone]
      by_cases herr : st ∈ errorStatuses
      · rw [if_pos herr]
        refine clearTerminal2_inv hs id _ _ (fun x => rfl) (fun x => rfl) ?_
        intro x hx hxid
        refine ⟨?_, fun _ => rfl⟩
        intro hc
        exact absurd hc (by simp)
      · rw [if_neg herr]
        refine updateImport_inv hs id _ (fun x => rfl) ?_
        intro x hx hxid
        obtain ⟨he, hc, her⟩ := hidfacts x hx hxid
        refine ⟨fun hh => absurd hh hc, fun hh => absurd he hh, ?_⟩
        intro hh
        rcases hh with hh | hh
        · exact absurd hh hc
        · exact absurd hh her

/-- User removal of an item preserves the invariant. -/
theorem remove_preserves {s : AppState} (id : String) (hs : TimerInv s) :
    TimerInv (removeImport id s) := by
  obtain ⟨hwf, hnid, hsubset, hkeep⟩ := clearTimerCond_wf hs.toTimerWF id
  have himp : (clearTimerCond id s).imports = s.imports := (timerOps_imports id s).1
  refine ⟨⟨hwf.liveMap, hwf.mapLive, hwf.fstNodup, hwf.bound⟩, ?_, ?_, ?_⟩
  · intro p hp
    have hpid := hnid p hp
    obtain ⟨item, hitem, hiid⟩ := hs.owners p (hsubset p hp)
    refine ⟨item, ?_, hiid⟩
    show item ∈ (clearTimerCond id s).imports.filter (fun it => it.id != id)
    rw [himp]
    refine List.mem_filter.mpr ⟨hitem, ?_⟩
    have hne : item.id ≠ id := by
      rw [hiid]
      exact hpid
    simpa using hne
  · show (((clearTimerCond id s).imports.filter
      (fun it => it.id != id)).map (·.id)).Nodup
    rw [himp]
    have hsl : List.Sublist (s.imports.filter (fun it => it.id != id))
        s.imports := List.filter_sublist _
    exact hs.idsNodup.sublist (hsl.map _)
  · intro x hx
    have hx2 : x ∈ (clearTimerCond id s).imports.filter
        (fun it => it.id != id) := hx
    rw [himp] at hx2
    have hx' : x ∈ s.imports := (List.mem_filter.mp hx2).1
    have hold := hs.itemsOk x hx'
    refine ⟨hold.1, hold.2.1, ?_⟩
    intro hterm p hp
    exact hold.2.2 hterm p (hsubset p hp)

/-- A terminal item never has a recorded timer. -/
theorem lookupTimer_none_of_terminal {s : AppState} (hs : TimerInv s)
    {item : ImportItem} (hmem : item ∈ s.imports)
    (hterm : item.stage = .complete ∨ item.stage = .error) :
    lookupTimer item.id s.timerMap = none := by
  rcases hl : lookupTimer item.id s.timerMap with _ | t
  · rfl
  · exact absurd rfl
      ((hs.itemsOk item hmem).2.2 hterm (t, item.id) (hs.mapLive _ t hl))

/-- The timer-clearing fold of `clearFinished` is a no-op under the
invariant (terminal items hold no timer). -/
theorem clearFold_eq {s : AppState} (hs : TimerInv s) (items : List ImportItem)
    (hsub : ∀ it ∈ items, it ∈ s.imports) :
    items.foldl (fun acc item =>
      if item.stage = .complete ∨ item.stage = .error then
        clearTimerCond item.id acc
      else acc) s = s := by
  induction items with
  | nil => rfl
  | cons a rest ih =>
    have hstep : (if a.stage = .complete ∨ a.stage = .error then
        clearTimerCond a.id s else s) = s := by
      by_cases ht : a.stage = .complete ∨ a.stage = .error
      · rw [if_pos ht]
        exact clearTimerCond_of_none
          (lookupTimer_none_of_terminal hs (hsub a (List.mem_cons_self _ _)) ht)
      · rw [if_neg ht]
    rw [List.foldl_cons, hstep]
    exact ih (fun it hit => hsub it (List.mem_cons_of_mem _ hit))

/-- Bulk clear of terminal items preserves the invariant. -/
theorem clearFinished_preserves {s : AppState} (hs : TimerInv s) :
    TimerInv (clearFinished s) := by
  unfold clearFinished
  rw [clearFold_eq hs s.imports (fun _ h => h)]
  dsimp only
  refine ⟨⟨hs.liveMap, hs.mapLive, hs.fstNodup, hs.bound⟩, ?_, ?_, ?_⟩
  · intro p hp
    obtain ⟨item, hitem, hiid⟩ := hs.owners p hp
    have hterm : ¬(item.stage = .complete ∨ item.stage = .error) := by
      intro hterm
      exact (hs.itemsOk item hitem).2.2 hterm p hp hiid.symm
    refine ⟨item, List.mem_filter.mpr ⟨hitem, ?_⟩, hiid⟩
    have := not_or.mp hterm
    exact decide_eq_true ⟨this.1, this.2⟩
  · have hsl : List.Sublist (s.imports.filter
        (fun item => decide (item.stage ≠ .complete ∧ item.stage ≠ .error)))
        s.imports := List.filter_sublist _
    exact hs.idsNodup.sublist (hsl.map _)
  · intro x hx
    have hx' : x ∈ s.imports := (List.mem_filter.mp hx).1
    exact hs.itemsOk x hx'

/-- Loading keeps every item's id. -/
theorem processLoadedItem_id (item : ImportItem) :
    (processLoadedItem item).id = item.id := by
  unfold processLoadedItem
  split <;> rfl

/-- A process restart (persist, reload, reclassify) preserves the
invariant: the new session starts with no timers and reclassified items are
in `error`. -/
theorem restart_preserves {s : AppState} (hs : TimerInv s) :
    TimerInv (loadFromStorage s.imports) := by
  refine ⟨⟨?_, ?_, ?_, ?_⟩, ?_, ?_, ?_⟩
  · intro p hp
    simp [loadFromStorage] at hp
  · intro id t h
    exact Option.noConfusion h
  · simp [loadFromStorage]
  · intro p hp
    simp [loadFromStorage] at hp
  · intro p hp
    simp [loadFromStorage] at hp
  · show ((s.imports.map processLoadedItem).map (·.id)).Nodup
    rw [List.map_map]
    have : s.imports.map ((·.id) ∘ processLoadedItem) = s.imports.map (·.id) := by
      apply List.map_congr_left
      intro x _
      exact processLoadedItem_id x
    rw [this]
    exact hs.idsNodup
  · intro x hx
    obtain ⟨y, hy, rfl⟩ := List.mem_map.mp hx
    unfold processLoadedItem
    split
    · have hold := hs.itemsOk y hy
      refine ⟨hold.1, hold.2.1, ?_⟩
      intro _ p hp
      simp [loadFromStorage] at hp
    · refine ⟨?_, fun _ => rfl, ?_⟩
      · intro hh
        exact absurd hh (by simp)
      · intro _ p hp
        simp [loadFromStorage] at hp

/-- One resume iteration preserves the invariant and the imports list. -/
theorem resumeStep_preserves {s : AppState} (hs : TimerInv s)
    {item : ImportItem} (hmem : item ∈ s.imports) :
    TimerInv (resumeStep s item) ∧ (resumeStep s item).imports = s.imports := by
  unfold resumeStep
  by_cases h : item.stage = .polling ∧ item.igniteVideoId.isSome = true ∧
      item.id ∉ s.resumed ∧ lookupTimer item.id s.timerMap = none
  · rw [if_pos h]
    have hs' : TimerInv { s with resumed := item.id :: s.resumed } :=
      ⟨⟨hs.liveMap, hs.mapLive, hs.fstNodup, hs.bound⟩, hs.owners,
        hs.idsNodup, hs.itemsOk⟩
    refine ⟨pollVideoStatus_inv hs' ⟨item, hmem, rfl, ?_, ?_⟩, rfl⟩
    · rw [h.1]
      exact fun hh => ImportStage.noConfusion hh
    · rw [h.1]
      exact fun hh => ImportStage.noConfusion hh
  · rw [if_neg h]
    exact ⟨hs, rfl⟩

/-- The resume fold preserves the invariant and the imports list. -/
theorem resumeFold_preserves {s : AppState} (items : List ImportItem) :
    ∀ acc : AppState, TimerInv acc → acc.imports = s.imports →
      (∀ it ∈ items, it ∈ s.imports) →
      TimerInv (items.foldl resumeStep acc) ∧
        (items.foldl resumeStep acc).imports = s.imports := by
  induction items with
  | nil => exact fun acc h hi _ => ⟨h, hi⟩
  | cons a rest ih =>
    intro acc hacc hai hsub
    have hmem : a ∈ acc.imports := by
      rw [hai]
      exact hsub a (List.mem_cons_self _ _)
    obtain ⟨hstep, hstepimp⟩ := resumeStep_preserves hacc hmem
    rw [List.foldl_cons]
    exact ih (resumeStep acc a) hstep (by rw [hstepimp, hai])
      (fun it hit => hsub it (List.mem_cons_of_mem _ hit))

/-- The resume-polling effect preserves the invariant. -/
theorem resume_preserves {s : AppState} (hs : TimerInv s) :
    TimerInv (resumePolling s) :=
  (resumeFold_preserves (s := s) s.imports s hs rfl (fun _ h => h)).1

/-- Every reachable application state satisfies the full invariant. -/
theorem reachable_inv {s : AppState} (h : Reachable s) : TimerInv s := by
  induction h with
  | init =>
    refine ⟨⟨?_, ?_, ?_, ?_⟩, ?_, ?_, ?_⟩
    · intro p hp
      simp [initialState] at hp
    · intro id t hh
      exact Option.noConfusion hh
    · simp [initialState]
    · intro p hp
      simp [initialState] at hp
    · intro p hp
      simp [initialState] at hp
    · simp [initialState]
    · intro item hitem
      simp [initialState] at hitem
  | step hr hstep ih =>
    rename_i s' t'
    cases hstep with
    | start id vid opts o hfresh => exact start_preserves id vid opts o hfresh ih
    | tick id out hlive => exact tick_preserves id out hlive ih
    | remove id => exact remove_preserves id ih
    | clear => exact clearFinished_preserves ih
    | restart => exact restart_preserves ih
    | resume => exact resume_preserves ih

/-- Registration under one id leaves other ids' map entries unchanged. -/
theorem lookupTimer_pollVideoStatus_ne {qid pid : String} (s : AppState)
    (h : pid ≠ qid) :
    lookupTimer pid (pollVideoStatus qid s).timerMap =
      lookupTimer pid s.timerMap := by
  have hq : ¬ qid = pid := fun hh => h hh.symm
  show lookupTimer pid ((qid, s.nextTimer) :: removeTimerKey qid s.timerMap) = _
  rw [lookupTimer, if_neg hq, lookupTimer_removeKey_ne qid pid _ h]

/-- Resume iterations never touch the imports list. -/
theorem resumeStep_imports (s : AppState) (item : ImportItem) :
    (resumeStep s item).imports = s.imports := by
  unfold resumeStep
  split
  · rfl
  · rfl

/-- Neither does the whole resume fold. -/
theorem resumeFold_imports (L : List ImportItem) :
    ∀ acc : AppState, (L.foldl resumeStep acc).imports = acc.imports := by
  induction L with
  | nil => exact fun acc => rfl
  | cons a rest ih =>
    intro acc
    rw [List.foldl_cons, ih, resumeStep_imports]

/-- A fresh session after a reload has well-formed (empty) timers. -/
theorem loadFromStorage_wf (items : List ImportItem) :
    TimerWF (loadFromStorage items) := by
  refine ⟨?_, ?_, ?_, ?_⟩
  · intro p hp
    simp [loadFromStorage] at hp
  · intro id t h
    exact Option.noConfusion h
  · simp [loadFromStorage]
  · intro p hp
    simp [loadFromStorage] at hp

/-- Folding resume iterations over items whose ids all differ from `pid`
keeps well-formedness and changes nothing observable about `pid`. -/
theorem resumeFold_skip {pid : String} (L : List ImportItem) :
    ∀ acc : AppState, TimerWF acc → (∀ y ∈ L, y.id ≠ pid) →
      TimerWF (L.foldl resumeStep acc) ∧
      liveCountFor pid (L.foldl resumeStep acc) = liveCountFor pid acc ∧
      lookupTimer pid (L.foldl resumeStep acc).timerMap =
        lookupTimer pid acc.timerMap ∧
      (pid ∈ (L.foldl resumeStep acc).resumed ↔ pid ∈ acc.resumed) := by
  induction L with
  | nil => exact fun acc h _ => ⟨h, rfl, rfl, Iff.rfl⟩
  | cons a rest ih =>
    intro acc hacc hne
    have hane : pid ≠ a.id :=
      fun hh => hne a (List.mem_cons_self _ _) hh.symm
    have hastep :
        TimerWF (resumeStep acc a) ∧
        liveCountFor pid (resumeStep acc a) = liveCountFor pid acc ∧
        lookupTimer pid (resumeStep acc a).timerMap =
          lookupTimer pid acc.timerMap ∧
        (pid ∈ (resumeStep acc a).resumed ↔ pid ∈ acc.resumed) := by
      unfold resumeStep
      by_cases h : a.stage = .polling ∧ a.igniteVideoId.isSome = true ∧
          a.id ∉ acc.resumed ∧ lookupTimer a.id acc.timerMap = none
      · rw [if_pos h]
        have hwf' : TimerWF { acc with resumed := a.id :: acc.resumed } :=
          ⟨hacc.liveMap, hacc.mapLive, hacc.fstNodup, hacc.bound⟩
        refine ⟨pollRegister_wf hwf' a.id, ?_, ?_, ?_⟩
        · exact pollRegister_count_ne hwf' hane
        · exact lookupTimer_pollVideoStatus_ne _ hane
        · constructor
          · intro hmm
            rcases List.mem_cons.mp hmm with hh | hh
            · exact absurd hh hane
            · exact hh
          · exact fun hmm => List.mem_cons_of_mem _ hmm
      · rw [if_neg h]
        exact ⟨hacc, rfl, rfl, Iff.rfl⟩
    rw [List.foldl_cons]
    obtain ⟨hw, hc, hl, hr⟩ := hastep
    obtain ⟨hw2, hc2, hl2, hr2⟩ := ih (resumeStep acc a) hw
      (fun y hy => hne y (List.mem_cons_of_mem _ hy))
    refine ⟨hw2, by rw [hc2, hc], by rw [hl2, hl], ?_⟩
    rw [hr2]
    exact hr

/-- An eligible item (polling, has an ignite id, not yet resumed, no live
timer) makes the resume iteration register a poll timer for it. -/
theorem resumeStep_eligible (s : AppState) (x : ImportItem)
    (hcond : x.stage = .polling ∧ x.igniteVideoId.isSome = true ∧
      x.id ∉ s.resumed ∧ lookupTimer x.id s.timerMap = none) :
    resumeStep s x =
      pollVideoStatus x.id { s with resumed := x.id :: s.resumed } := by
  unfold resumeStep
  rw [if_pos hcond]

/-- A persisted `polling` item with a destination id gets exactly one live
timer from the resume effect, and is marked resumed. -/
theorem resume_polling_count {items : List ImportItem} {x : ImportItem}
    (h2 : (items.map (·.id)).Nodup) (hmem : x ∈ items)
    (hpoll : x.stage = .polling) (hvid : x.igniteVideoId.isSome = true) :
    liveCountFor x.id (resumePolling (loadFromStorage items)) = 1 ∧
    x.id ∈ (resumePolling (loadFromStorage items)).resumed := by
  have hkeep : processLoadedItem x = x := by
    unfold processLoadedItem
    rw [if_pos (Or.inr (by simp [RESUMABLE_STAGES, hpoll]))]
  have hxL : x ∈ items.map processLoadedItem := by
    rw [← hkeep]
    exact List.mem_map_of_mem _ hmem
  obtain ⟨L1, L2, hdec⟩ := List.append_of_mem hxL
  have hids : ((items.map processLoadedItem).map (·.id)).Nodup := by
    rw [List.map_map]
    have hcong : items.map ((·.id) ∘ processLoadedItem) = items.map (·.id) :=
      List.map_congr_left (fun y _ => processLoadedItem_id y)
    rw [hcong]
    exact h2
  rw [hdec, List.map_append, List.map_cons] at hids
  have hmid := (List.nodup_middle).mp hids
  rw [List.nodup_cons] at hmid
  have hnotmem : x.id ∉ L1.map (·.id) ++ L2.map (·.id) := hmid.1
  have hneq1 : ∀ y ∈ L1, y.id ≠ x.id := by
    intro y hy hyx
    apply hnotmem
    rw [← hyx]
    exact List.mem_append_left _ (List.mem_map_of_mem _ hy)
  have hneq2 : ∀ y ∈ L2, y.id ≠ x.id := by
    intro y hy hyx
    apply hnotmem
    rw [← hyx]
    exact List.mem_append_right _ (List.mem_map_of_mem _ hy)
  have hfold : resumePolling (loadFromStorage items) =
      L2.foldl resumeStep
        (resumeStep (L1.foldl resumeStep (loadFromStorage items)) x) := by
    show (loadFromStorage items).imports.foldl resumeStep
        (loadFromStorage items) = _
    have himps : (loadFromStorage items).imports = L1 ++ x :: L2 := hdec
    rw [himps, List.foldl_append, List.foldl_cons]
  obtain ⟨hw1, hc1, hl1, hr1⟩ :=
    resumeFold_skip L1 (loadFromStorage items) (loadFromStorage_wf items) hneq1
  have h0l : lookupTimer x.id (loadFromStorage items).timerMap = none := rfl
  have h0r : x.id ∉ (loadFromStorage items).resumed := by
    simp [loadFromStorage]
  have hcond : x.stage = .polling ∧ x.igniteVideoId.isSome = true ∧
      x.id ∉ (L1.foldl resumeStep (loadFromStorage items)).resumed ∧
      lookupTimer x.id
        (L1.foldl resumeStep (loadFromStorage items)).timerMap = none := by
    refine ⟨hpoll, hvid, ?_, ?_⟩
    · intro hmm
      exact h0r (hr1.mp hmm)
    · rw [hl1]
      exact h0l
  have hstep : resumeStep (L1.foldl resumeStep (loadFromStorage items)) x =
      pollVideoStatus x.id
        { L1.foldl resumeStep (loadFromStorage items) with
          resumed := x.id ::
            (L1.foldl resumeStep (loadFromStorage items)).resumed } :=
    resumeStep_eligible _ x hcond
  have hwf' : TimerWF
      { L1.foldl resumeStep (loadFromStorage items) with
        resumed := x.id ::
          (L1.foldl resumeStep (loadFromStorage items)).resumed } :=
    ⟨hw1.liveMap, hw1.mapLive, hw1.fstNodup, hw1.bound⟩
  obtain ⟨hw2, hc2, hl2, hr2⟩ :=
    resumeFold_skip L2 _ (pollRegister_wf hwf' x.id) hneq2
  rw [hfold, hstep]
  refine ⟨?_, ?_⟩
  · rw [hc2]
    exact pollRegister_count hwf' x.id
  · apply hr2.mpr
    exact List.mem_cons_self _ _

/-! ### Claims C3, C9, C4 -/

/-- Oracle for a fully successful import run (pre-check finds no duplicate,
all requests resolve). -/
def c3Oracle : ImportOracle :=
  { precheck := .ok none, vimeo := .ok cexVimeoData, downloadTicks := [],
    downloadResult := .ok (), createResult := .ok ("ig-3", "u3"),
    uploadTicks := [], uploadResult := .ok (), thumbDownload := .ok (),
    thumbUpload := .ok "t3" }

/-- State after a successful import run ending in `polling`. -/
def c3Mid : AppState :=
  startImport "c3i" "v3" defaultOptions c3Oracle initialState

/-- The same session reloaded: the persisted `polling` item comes back, the
timers do not. -/
def c3CexState : AppState := loadFromStorage c3Mid.imports

/-- Counterexample to claim C3 as stated: in the reachable state right
after a process restart, the reloaded item is still in `polling` stage but
has ZERO live poll timers (the resume effect has not run yet), so
"`polling` implies exactly one live timer" is false. -/
theorem C3_counterexample :
    Reachable c3CexState ∧
    c3CexState.imports.map
      (fun item => (item.stage, liveCountFor item.id c3CexState)) =
      [(.polling, 0)] := by
  constructor
  · exact Reachable.step
      (Reachable.step Reachable.init
        (Step.start "c3i" "v3" defaultOptions c3Oracle
          (fun it h => absurd h (List.not_mem_nil _))))
      Step.restart
  · decide

/-- Claim C3 (amended): in every reachable state no import id ever has two
live poll timers, and invoking poll-registration for an id — even one whose
timer is already live — leaves exactly one live timer for it (the
registration cancels any existing timer before storing the new one). The
original claim's further clause that every `polling`-stage item has exactly
one live timer is false right after a process restart, when a persisted
`polling` item is reloaded before the resume effect re-registers it. -/
theorem C3_timer_uniqueness {s : AppState} (hs : Reachable s) :
    (∀ id, liveCountFor id s ≤ 1) ∧
    (∀ id, liveCountFor id (pollVideoStatus id s) = 1) := by
  have hinv := reachable_inv hs
  exact ⟨fun id => liveCount_le_one hinv.toTimerWF id,
    fun id => pollRegister_count hinv.toTimerWF id⟩

/-- The amended C3 at the initial state and id "w". -/
theorem C3_timer_uniqueness_witness :
    liveCountFor "w" initialState ≤ 1 ∧
    liveCountFor "w" (pollVideoStatus "w" initialState) = 1 :=
  ⟨(C3_timer_uniqueness Reachable.init).1 "w",
   (C3_timer_uniqueness Reachable.init).2 "w"⟩

/-- Claim C9: in every reachable state, every item whose stage is
`complete` has progress 100 and no error message; since this holds of all
reachable states it holds at the completing transition and at every later
state while the stage remains `complete`. -/
theorem C9_complete_invariant {s : AppState} (hs : Reachable s) :
    ∀ item ∈ s.imports, item.stage = .complete →
      item.progress = 100 ∧ item.errorMessage = none :=
  fun item hmem hst => ((reachable_inv hs).itemsOk item hmem).1 hst

/-- The item produced by a successful run followed by a READY poll tick. -/
def c9Item : ImportItem :=
  { id := "c3i", vimeoId := "v3", stage := .complete, progress := 100,
    statusText := "Import complete!", vimeoData := some cexVimeoData,
    igniteVideoId := some "ig-3", thumbnailUrl := none, errorMessage := none,
    options := defaultOptions }

/-- C9 at the concrete reachable state where the run of `c3Oracle` was
completed by a READY tick. -/
theorem C9_complete_invariant_witness :
    c9Item.progress = 100 ∧ c9Item.errorMessage = none :=
  C9_complete_invariant
    (Reachable.step
      (Reachable.step Reachable.init
        (Step.start "c3i" "v3" defaultOptions c3Oracle
          (fun it h => absurd h (List.not_mem_nil _))))
      (Step.tick "c3i" (.status "READY") (by decide)))
    c9Item (by decide) (by decide)

/-- Folding a function that fixes `s` on every listed element fixes `s`. -/
theorem foldl_fixed {α : Type} (f : AppState → α → AppState) (s : AppState) :
    ∀ L : List α, (∀ a ∈ L, f s a = s) → L.foldl f s = s := by
  intro L
  induction L with
  | nil => exact fun _ => rfl
  | cons a rest ih =>
    intro h
    rw [List.foldl_cons, h a (List.mem_cons_self _ _)]
    exact ih (fun b hb => h b (List.mem_cons_of_mem _ hb))

/-- Claim C4: loading a persisted collection (with distinct ids, polling
items carrying their destination id) keeps terminal (`complete`/`error`)
and `polling` items unchanged; reclassifies every other item to `error`
with the interrupted message and `Interrupted` status text; and the resume
effect then registers exactly one live poll timer for each `polling` item —
running the resume effect again changes nothing. -/
theorem C4_load_resume (items : List ImportItem)
    (hvid : ∀ it ∈ items, it.stage = .polling → it.igniteVideoId.isSome = true)
    (hids : (items.map (·.id)).Nodup) :
    (∀ it ∈ items,
        (it.stage = .complete ∨ it.stage = .error ∨ it.stage = .polling) →
        processLoadedItem it = it) ∧
    (∀ it ∈ items,
        ¬(it.stage = .complete ∨ it.stage = .error ∨ it.stage = .polling) →
        processLoadedItem it =
          { it with stage := .error, errorMessage := some "Import was interrupted. Please try again.", statusText := "Interrupted" }) ∧
    (∀ it ∈ items, it.stage = .polling →
        liveCountFor it.id (resumePolling (loadFromStorage items)) = 1) ∧
    resumePolling (resumePolling (loadFromStorage items)) =
      resumePolling (loadFromStorage items) := by
  refine ⟨?_, ?_, ?_, ?_⟩
  · intro it _ h
    have hcond : it.stage ∈ FINAL_STAGES ∨ it.stage ∈ RESUMABLE_STAGES := by
      rcases h with h | h | h
      · exact Or.inl (by simp [FINAL_STAGES, h])
      · exact Or.inl (by simp [FINAL_STAGES, h])
      · exact Or.inr (by simp [RESUMABLE_STAGES, h])
    unfold processLoadedItem
    rw [if_pos hcond]
  · intro it _ h
    have hcond : ¬(it.stage ∈ FINAL_STAGES ∨ it.stage ∈ RESUMABLE_STAGES) := by
      intro hc
      apply h
      rcases hc with hc | hc
      · simp only [FINAL_STAGES, List.mem_cons, List.not_mem_nil,
          or_false] at hc
        rcases hc with hc | hc
        · exact Or.inl hc
        · exact Or.inr (Or.inl hc)
      · simp only [RESUMABLE_STAGES, List.mem_cons, List.not_mem_nil,
          or_false] at hc
        exact Or.inr (Or.inr hc)
    unfold processLoadedItem
    rw [if_neg hcond]
  · intro it hit hpol
    exact (resume_polling_count hids hit hpol (hvid it hit hpol)).1
  · have himps : (resumePolling (loadFromStorage items)).imports =
        items.map processLoadedItem :=
      resumeFold_imports _ _
    have hnoop : ∀ y ∈ items.map processLoadedItem,
        resumeStep (resumePolling (loadFromStorage items)) y =
          resumePolling (loadFromStorage items) := by
      intro y hy
      obtain ⟨z, hz, hyz⟩ := List.mem_map.mp hy
      have hcf : ¬(y.stage = .polling ∧ y.igniteVideoId.isSome = true ∧
          y.id ∉ (resumePolling (loadFromStorage items)).resumed ∧
          lookupTimer y.id
            (resumePolling (loadFromStorage items)).timerMap = none) := by
        rintro ⟨hp, hv, hnr, -⟩
        by_cases hzk : z.stage ∈ FINAL_STAGES ∨ z.stage ∈ RESUMABLE_STAGES
        · have hyz2 : y = z := by
            rw [← hyz]
            unfold processLoadedItem
            rw [if_pos hzk]
          rw [hyz2] at hp hv hnr
          exact hnr (resume_polling_count hids hz hp hv).2
        · have hyerr : y.stage = .error := by
            rw [← hyz]
            unfold processLoadedItem
            rw [if_neg hzk]
          rw [hyerr] at hp
          exact ImportStage.noConfusion hp
      unfold resumeStep
      rw [if_neg hcf]
    show (resumePolling (loadFromStorage items)).imports.foldl resumeStep
        (resumePolling (loadFromStorage items)) =
      resumePolling (loadFromStorage items)
    rw [himps]
    exact foldl_fixed _ _ _ hnoop

/-- Two persisted items: one `polling` (kept, timer re-registered once) and
one `uploading` (reclassified to interrupted `error`). -/
def c4PollItem : ImportItem :=
  { id := "p1", vimeoId := "v1", stage := .polling, progress := 98,
    statusText := "Processing...", vimeoData := none,
    igniteVideoId := some "ig9", thumbnailUrl := none, errorMessage := none,
    options := defaultOptions }

/-- A persisted mid-transfer item. -/
def c4UpItem : ImportItem :=
  { id := "u1", vimeoId := "v9", stage := .uploading, progress := 60,
    statusText := "Uploading to Ignite...", vimeoData := none,
    igniteVideoId := some "ig8", thumbnailUrl := none, errorMessage := none,
    options := defaultOptions }

/-- C4 at the concrete persisted collection `[c4PollItem, c4UpItem]`. -/
theorem C4_load_resume_witness :
    processLoadedItem c4PollItem = c4PollItem ∧
    processLoadedItem c4UpItem =
      { c4UpItem with stage := .error, errorMessage := some "Import was interrupted. Please try again.", statusText := "Interrupted" } ∧
    liveCountFor c4PollItem.id
      (resumePolling (loadFromStorage [c4PollItem, c4UpItem])) = 1 ∧
    resumePolling (resumePolling (loadFromStorage [c4PollItem, c4UpItem])) =
      resumePolling (loadFromStorage [c4PollItem, c4UpItem]) :=
  ⟨(C4_load_resume [c4PollItem, c4UpItem] (by decide) (by decide)).1
      c4PollItem (by decide) (by decide),
   (C4_load_resume [c4PollItem, c4UpItem] (by decide) (by decide)).2.1
      c4UpItem (by decide) (by decide),
   (C4_load_resume [c4PollItem, c4UpItem] (by decide) (by decide)).2.2.1
      c4PollItem (by decide) (by decide),
   (C4_load_resume [c4PollItem, c4UpItem] (by decide) (by decide)).2.2.2⟩
